import Mathlib

/-!
Verification development for the NFL playoff simulator core.

This file gives a shallow embedding, in Lean 4, of the simulator's two core
subsystems — the tiebreaker resolution engine (`src/simulation/tieBreakers.ts`),
the schedule-strength calculator (`src/simulation/scheduleStrength.ts`) and the
Monte Carlo season simulator (`monteCarlo.ts`) — and proves properties of the
embedded definitions.

Modelling conventions:
* JavaScript numbers are modelled as `ℚ` (exact rational arithmetic) for the
  percentage/rating computations and as `ℕ` for the integer counters.
* A JS `Map` is modelled as an insertion-ordered association list
  (`JMap α := List (String × α)`), with `jget`/`jset`/`jgetD` mirroring
  `Map.get`/`Map.set`, where `jset` updates an existing key in place
  (preserving its position, as JS `Map.set` does) and appends new keys.
* A JS `Set` of strings is modelled as a duplicate-free list in insertion
  order (`jsAdd` mirrors `Set.add`; `jsSetOf` mirrors `new Set(array)`).
* `Math.random()` draws and the coin-toss choice are modelled by explicit
  oracles (`urand : ℕ → ℚ` indexed by a running draw counter, and
  `pick : List Team → ℕ`, reduced mod the pool size, which models the always
  in-range index `Math.floor(Math.random() * pool.length)`).
* The float transcendental `Math.pow(10, x)` is modelled by an oracle
  `pow10 : ℚ → ℚ`; no claim proved here depends on its values.
* JS `Array.prototype.sort` (stable in ES2019+) is modelled by a stable
  insertion sort `jsSortBy`.
* Thrown configuration errors are modelled with `Except String`.
-/

namespace NFLSim

/-- Association-list model of a JS `Map` with string keys. -/
abbrev JMap (α : Type) : Type := List (String × α)

/-- Model of `Map.get`: the value at the first (unique) occurrence of the key. -/
def jget {α : Type} : JMap α → String → Option α
  | [], _ => none
  | (k, v) :: rest, key => if k = key then some v else jget rest key

/-- Model of `Map.get(k) ?? d`. -/
def jgetD {α : Type} (m : JMap α) (key : String) (d : α) : α :=
  (jget m key).getD d

/-- Model of `Map.set`: updates an existing key in place, else appends. -/
def jset {α : Type} : JMap α → String → α → JMap α
  | [], key, v => [(key, v)]
  | (k, w) :: rest, key, v =>
      if k = key then (k, v) :: rest else (k, w) :: jset rest key v

/-- Keys of the map, in insertion order. -/
def jkeys {α : Type} (m : JMap α) : List String := m.map (·.1)

/-- Model of `Set.add` on an insertion-ordered duplicate-free list. -/
def jsAdd {α : Type} [DecidableEq α] (s : List α) (x : α) : List α :=
  if x ∈ s then s else s ++ [x]

/-- Model of `new Set(array)`: first-occurrence de-duplication. -/
def jsSetOf {α : Type} [DecidableEq α] (l : List α) : List α :=
  l.foldl jsAdd []

/-- Stable insertion step used to model `Array.prototype.sort`. -/
def insertSorted {α : Type} (le : α → α → Bool) (x : α) : List α → List α
  | [] => [x]
  | y :: ys => if le x y then x :: y :: ys else y :: insertSorted le x ys

/-- Model of the (stable) JS `Array.prototype.sort` with comparator `le`. -/
def jsSortBy {α : Type} (le : α → α → Bool) : List α → List α
  | [] => []
  | x :: xs => insertSorted le x (jsSortBy le xs)

/-- Model of JS `Math.max(a, b)` (total order on the rationals). -/
def qmax (a b : ℚ) : ℚ := if a ≤ b then b else a

/-- Model of JS `Math.min(a, b)`. -/
def qmin (a b : ℚ) : ℚ := if a ≤ b then a else b

/-- Model of JS `Math.abs(x)`. -/
def qabs (a : ℚ) : ℚ := if a < 0 then -a else a

/-- Model of `Math.max(...list)` on a list known to be nonempty at call sites
(the empty case is unreachable in the embedded code; `0` is a placeholder). -/
def jsMaxQ : List ℚ → ℚ
  | [] => 0
  | h :: t => t.foldl qmax h

-- --- DATA MODEL (src/types.ts) ---

/-- A team's standing entry (fields used by the simulation core). -/
structure Team where
  id : String
  name : String
  wins : ℕ
  losses : ℕ
  ties : ℕ
  divisionWins : ℕ
  divisionLosses : ℕ
  divisionTies : ℕ
  conferenceWins : ℕ
  conferenceLosses : ℕ
  conferenceTies : ℕ
  conference : String
  division : String
deriving DecidableEq

/-- A scheduled or completed game (fields used by the simulation core).
`winnerId` is `none` for an unplayed game, `some "TIE"` for a tie. -/
structure Game where
  id : String
  week : ℕ
  homeTeamId : String
  awayTeamId : String
  isFinished : Bool
  winnerId : Option String
deriving DecidableEq

/-- Per-trial mutable season counters (`SeasonStats` in tieBreakers.ts).
The source's `gamesPlayed` map is written (always to an empty map) but never
read anywhere in the repository, so it is omitted here. -/
structure SeasonStats where
  wins : ℕ
  losses : ℕ
  ties : ℕ
  divWins : ℕ
  divLosses : ℕ
  divTies : ℕ
  confWins : ℕ
  confLosses : ℕ
  confTies : ℕ
  sov : ℚ
  sos : ℚ
deriving DecidableEq

abbrev TeamStatsMap := JMap SeasonStats

/-- Default stats record; stands in for the source's non-null assertion
`statsMap.get(t.id)!`, which is never actually missing at the call sites. -/
def defaultStats : SeasonStats :=
  { wins := 0, losses := 0, ties := 0, divWins := 0, divLosses := 0,
    divTies := 0, confWins := 0, confLosses := 0, confTies := 0,
    sov := 0, sos := 0 }

-- --- TIEBREAKER ENGINE (src/simulation/tieBreakers.ts) ---

/-- The epsilon used for floating-point equality of percentages. -/
def EPSILON : ℚ := 1 / 1000000000

/-- Overall win percentage; `0` for a missing stats record or zero games. -/
def getWinPct : Option SeasonStats → ℚ
  | none => 0
  | some stats =>
      let total : ℕ := stats.wins + stats.losses + stats.ties
      if total = 0 then 0
      else ((stats.wins : ℚ) + (1/2 : ℚ) * (stats.ties : ℚ)) / (total : ℚ)

/-- Division-record win percentage; `0` for zero division games. -/
def getDivPct (stats : SeasonStats) : ℚ :=
  let total : ℕ := stats.divWins + stats.divLosses + stats.divTies
  if total = 0 then 0
  else ((stats.divWins : ℚ) + (1/2 : ℚ) * (stats.divTies : ℚ)) / (total : ℚ)

/-- Conference-record win percentage; `0` for zero conference games. -/
def getConfPct (stats : SeasonStats) : ℚ :=
  let total : ℕ := stats.confWins + stats.confLosses + stats.confTies
  if total = 0 then 0
  else ((stats.confWins : ℚ) + (1/2 : ℚ) * (stats.confTies : ℚ)) / (total : ℚ)

/-- Result of `getH2HRecord`. -/
structure H2HRecord where
  wins : ℕ
  losses : ℕ
  ties : ℕ
  opponentsPlayed : List String
deriving DecidableEq

/-- The opponent of `teamId` in game `g`. -/
def h2hOpp (teamId : String) (g : Game) : String :=
  if g.homeTeamId = teamId then g.awayTeamId else g.homeTeamId

/-- One loop iteration of `getH2HRecord` over a single game. -/
def h2hStep (teamId : String) (opponentIds : List String)
    (gameResults : JMap String) (acc : H2HRecord) (g : Game) : H2HRecord :=
  if h2hOpp teamId g ∈ opponentIds then
    match jget gameResults g.id with
    | none => acc
    | some winnerId =>
        if winnerId = "TIE" then
          { acc with opponentsPlayed := jsAdd acc.opponentsPlayed (h2hOpp teamId g),
                     ties := acc.ties + 1 }
        else if winnerId = teamId then
          { acc with opponentsPlayed := jsAdd acc.opponentsPlayed (h2hOpp teamId g),
                     wins := acc.wins + 1 }
        else
          { acc with opponentsPlayed := jsAdd acc.opponentsPlayed (h2hOpp teamId g),
                     losses := acc.losses + 1 }
  else acc

/-- Head-to-head record of `teamId` against the opponent set, over the team's
game list, using the decided results in `gameResults`. -/
def getH2HRecord (teamId : String) (opponentIds : List String)
    (teamGames : List Game) (gameResults : JMap String) : H2HRecord :=
  teamGames.foldl (h2hStep teamId opponentIds gameResults)
    { wins := 0, losses := 0, ties := 0, opponentsPlayed := [] }

/-- Head-to-head win percentage; `0` for zero head-to-head games. -/
def getH2HPct (record : H2HRecord) : ℚ :=
  let total : ℕ := record.wins + record.losses + record.ties
  if total = 0 then 0
  else ((record.wins : ℚ) + (1/2 : ℚ) * (record.ties : ℚ)) / (total : ℚ)

/-- Result of `getCommonGamesRecord`. -/
structure CommonRecord where
  wins : ℕ
  losses : ℕ
  ties : ℕ
  valid : Bool
deriving DecidableEq

/-- The set of opponents common to every team of `groupIds` (candidates
themselves excluded), as computed by the first loop of
`getCommonGamesRecord`. The source breaks out of the loop once the
intersection is empty; intersecting an empty set further is a no-op, so the
fold below is equivalent. -/
def commonOpponentsOf (groupIds : List String)
    (opponentsMap : JMap (List String)) : Option (List String) :=
  groupIds.foldl
    (fun acc tid =>
      let opps := jsSetOf ((jgetD opponentsMap tid []).filter
        (fun o => decide (¬ o ∈ groupIds)))
      match acc with
      | none => some opps
      | some cur => some (cur.filter (fun o => decide (o ∈ opps))))
    none

/-- Number of decided games of `teamId` against the common-opponent set
(games, not distinct opponents). -/
def commonGamesPlayed (teamId : String) (commonOpponents : List String)
    (teamGames : List Game) (gameResults : JMap String) : ℕ :=
  teamGames.foldl
    (fun n g =>
      let oppId := if g.homeTeamId = teamId then g.awayTeamId else g.homeTeamId
      if oppId ∈ commonOpponents then
        match jget gameResults g.id with
        | none => n
        | some _ => n + 1
      else n)
    0

/-- Win/loss/tie tally of `teamId` over its decided games against the
common-opponent set. -/
def commonTally (teamId : String) (commonOpponents : List String)
    (teamGames : List Game) (gameResults : JMap String) : ℕ × ℕ × ℕ :=
  teamGames.foldl
    (fun acc g =>
      let oppId := if g.homeTeamId = teamId then g.awayTeamId else g.homeTeamId
      if oppId ∈ commonOpponents then
        match jget gameResults g.id with
        | none => acc
        | some winner =>
            if winner = "TIE" then (acc.1, acc.2.1, acc.2.2 + 1)
            else if winner = teamId then (acc.1 + 1, acc.2.1, acc.2.2)
            else (acc.1, acc.2.1 + 1, acc.2.2)
      else acc)
    (0, 0, 0)

/-- Common-games record for one candidate: requires a nonempty common-opponent
set and a minimum of four decided games against it. -/
def getCommonGamesRecord (teamId : String) (groupIds : List String)
    (teamGames : List Game) (gameResults : JMap String)
    (opponentsMap : JMap (List String)) : CommonRecord :=
  match commonOpponentsOf groupIds opponentsMap with
  | none => { wins := 0, losses := 0, ties := 0, valid := false }
  | some common =>
      if common = [] then { wins := 0, losses := 0, ties := 0, valid := false }
      else if commonGamesPlayed teamId common teamGames gameResults < 4 then
        { wins := 0, losses := 0, ties := 0, valid := false }
      else
        let t := commonTally teamId common teamGames gameResults
        { wins := t.1, losses := t.2.1, ties := t.2.2, valid := true }

/-- Outcome of one tiebreaker step. -/
structure TiebreakerResult where
  survivors : List Team
  eliminated : Bool
deriving DecidableEq

/-- Predicate for a clean sweep (beat every other candidate, no losses/ties,
having played all of them); `n` is the pool size. -/
def isSweeperRec (n : ℕ) (r : H2HRecord) : Bool :=
  r.opponentsPlayed.length == n - 1 && r.losses == 0 && r.ties == 0 && r.wins != 0

/-- Predicate for being cleanly swept (lost to every other candidate). -/
def isSweptRec (n : ℕ) (r : H2HRecord) : Bool :=
  r.opponentsPlayed.length == n - 1 && r.wins == 0 && r.ties == 0 && r.losses != 0

/-- Sweep-only head-to-head applicability for pools of three or more teams. -/
def applyMultiTeamSweepH2H (pool : List Team) (gameResults : JMap String)
    (teamGamesMap : JMap (List Game)) : TiebreakerResult :=
  if pool.length ≤ 2 then { survivors := pool, eliminated := false }
  else
    let ids := pool.map (·.id)
    let records := pool.map (fun t =>
      (t, getH2HRecord t.id ids (jgetD teamGamesMap t.id []) gameResults))
    let sweepers := records.filter (fun r => isSweeperRec pool.length r.2)
    match sweepers with
    | [s] => { survivors := [s.1], eliminated := true }
    | _ =>
        let swept := records.filter (fun r => isSweptRec pool.length r.2)
        if swept.length != 0 && decide (swept.length < pool.length) then
          let sweptIds := swept.map (fun s => s.1.id)
          { survivors := pool.filter (fun t => decide (¬ t.id ∈ sweptIds)),
            eliminated := true }
        else { survivors := pool, eliminated := false }

/-- Generic best-metric step: retain the candidates within `EPSILON` of the
maximum metric value. -/
def applyBestMetric (pool : List Team) (getValue : Team → ℚ) : TiebreakerResult :=
  if pool.length ≤ 1 then { survivors := pool, eliminated := false }
  else
    let scored := pool.map (fun t => (t, getValue t))
    let maxVal := jsMaxQ (scored.map (·.2))
    let best := (scored.filter (fun s => decide (qabs (s.2 - maxVal) < EPSILON))).map (·.1)
    { survivors := best, eliminated := decide (best.length < pool.length) }

/-- Division head-to-head step. -/
def applyDivisionH2H (pool : List Team) (gameResults : JMap String)
    (teamGamesMap : JMap (List Game)) : TiebreakerResult :=
  if pool.length ≤ 1 then { survivors := pool, eliminated := false }
  else if 3 ≤ pool.length then applyMultiTeamSweepH2H pool gameResults teamGamesMap
  else
    let ids := pool.map (·.id)
    let records := pool.map (fun t =>
      (t, getH2HPct (getH2HRecord t.id ids (jgetD teamGamesMap t.id []) gameResults)))
    let maxPct := jsMaxQ (records.map (·.2))
    let best := (records.filter (fun r => decide (qabs (r.2 - maxPct) < EPSILON))).map (·.1)
    { survivors := best, eliminated := decide (best.length < pool.length) }

/-- Wildcard head-to-head step (sweep logic for three or more teams,
head-to-head percentage for two). -/
def applyWildcardH2H (pool : List Team) (gameResults : JMap String)
    (teamGamesMap : JMap (List Game)) : TiebreakerResult :=
  if pool.length ≤ 1 then { survivors := pool, eliminated := false }
  else if 3 ≤ pool.length then applyMultiTeamSweepH2H pool gameResults teamGamesMap
  else
    let ids := pool.map (·.id)
    let records := pool.map (fun t =>
      (t, getH2HPct (getH2HRecord t.id ids (jgetD teamGamesMap t.id []) gameResults)))
    let maxPct := jsMaxQ (records.map (·.2))
    let best := (records.filter (fun r => decide (qabs (r.2 - maxPct) < EPSILON))).map (·.1)
    { survivors := best, eliminated := decide (best.length < pool.length) }

/-- Common-games percentage of a record (`-1` marks an invalid record; the
source divides by `total || 1`). -/
def commonGamesPct (record : CommonRecord) : ℚ :=
  if record.valid then
    let total : ℕ := record.wins + record.losses + record.ties
    ((record.wins : ℚ) + (1/2 : ℚ) * (record.ties : ℚ)) /
      (if total = 0 then 1 else (total : ℚ))
  else -1

/-- Common-games step: not applicable (no elimination) unless every candidate
has a valid common-games record. -/
def applyCommonGames (pool : List Team) (gameResults : JMap String)
    (opponentsMap : JMap (List String)) (teamGamesMap : JMap (List Game)) :
    TiebreakerResult :=
  if pool.length ≤ 1 then { survivors := pool, eliminated := false }
  else
    let ids := pool.map (·.id)
    let records := pool.map (fun t =>
      let record := getCommonGamesRecord t.id ids (jgetD teamGamesMap t.id [])
        gameResults opponentsMap
      (t, commonGamesPct record, record.valid))
    if records.any (fun r => !r.2.2) then { survivors := pool, eliminated := false }
    else
      let maxPct := jsMaxQ (records.map (·.2.1))
      let best := (records.filter (fun r => decide (qabs (r.2.1 - maxPct) < EPSILON))).map (·.1)
      { survivors := best, eliminated := decide (best.length < pool.length) }

/-- Final tiebreaker: random selection. `pick pool % pool.length` models the
always in-range random index `Math.floor(Math.random() * pool.length)`. -/
def applyCoinToss (pick : List Team → ℕ) (pool : List Team) : TiebreakerResult :=
  if pool.length ≤ 1 then { survivors := pool, eliminated := false }
  else
    match pool[pick pool % pool.length]? with
    | some winner => { survivors := [winner], eliminated := true }
    | none => { survivors := pool, eliminated := false }

/-- Tiebreak procedure selector. -/
inductive TiebreakType where
  | division
  | wildcard
deriving DecidableEq

/-- The ordered tiebreaker step lists of `buildTiebreakerSteps`. -/
def buildTiebreakerSteps (type : TiebreakType) (statsMap : TeamStatsMap)
    (gameResults : JMap String) (opponentsMap : JMap (List String))
    (teamGamesMap : JMap (List Game)) : List (List Team → TiebreakerResult) :=
  match type with
  | .division =>
      [ fun pool => applyDivisionH2H pool gameResults teamGamesMap,
        fun pool => applyBestMetric pool (fun t => getDivPct (jgetD statsMap t.id defaultStats)),
        fun pool => applyCommonGames pool gameResults opponentsMap teamGamesMap,
        fun pool => applyBestMetric pool (fun t => getConfPct (jgetD statsMap t.id defaultStats)),
        fun pool => applyBestMetric pool (fun t => (jgetD statsMap t.id defaultStats).sov),
        fun pool => applyBestMetric pool (fun t => (jgetD statsMap t.id defaultStats).sos) ]
  | .wildcard =>
      [ fun pool => applyWildcardH2H pool gameResults teamGamesMap,
        fun pool => applyBestMetric pool (fun t => getConfPct (jgetD statsMap t.id defaultStats)),
        fun pool => applyCommonGames pool gameResults opponentsMap teamGamesMap,
        fun pool => applyBestMetric pool (fun t => (jgetD statsMap t.id defaultStats).sov),
        fun pool => applyBestMetric pool (fun t => (jgetD statsMap t.id defaultStats).sos) ]

/-- The defensive iteration cap of `findTiebreakerWinner`. -/
def MAX_ITERATIONS : ℕ := 50

/-- The step-application loop of `findTiebreakerWinner`: apply the step at
`stepIdx`; on an elimination restart from step 0 with the reduced pool, else
move to the next step; when the steps or the iteration budget run out, fall
back to the coin toss. `fuel` is the remaining iteration budget. -/
def tbLoop (pick : List Team → ℕ) (steps : List (List Team → TiebreakerResult)) :
    List Team → ℕ → ℕ → List Team
  | pool, _, 0 => (applyCoinToss pick pool).survivors
  | pool, stepIdx, fuel + 1 =>
      match steps[stepIdx]? with
      | none => (applyCoinToss pick pool).survivors
      | some step =>
          let r := step pool
          if r.eliminated then
            if r.survivors.length == 1 then r.survivors
            else tbLoop pick steps r.survivors 0 fuel
          else tbLoop pick steps pool (stepIdx + 1) fuel

/-- Run the tiebreaker step list on a pool (the part of `findTiebreakerWinner`
after the wildcard pre-step). -/
def runTiebreakSteps (pick : List Team → ℕ) (type : TiebreakType)
    (statsMap : TeamStatsMap) (gameResults : JMap String)
    (opponentsMap : JMap (List String)) (teamGamesMap : JMap (List Game))
    (pool : List Team) : List Team :=
  if pool.length == 1 then pool
  else tbLoop pick (buildTiebreakerSteps type statsMap gameResults opponentsMap teamGamesMap)
    pool 0 MAX_ITERATIONS

/-- The division-procedure `findTiebreakerWinner` (no pre-step). -/
def findTiebreakerWinnerDiv (pick : List Team → ℕ) (candidates : List Team)
    (statsMap : TeamStatsMap) (gameResults : JMap String)
    (opponentsMap : JMap (List String)) (teamGamesMap : JMap (List Game)) :
    List Team :=
  runTiebreakSteps pick TiebreakType.division statsMap gameResults opponentsMap
    teamGamesMap candidates

/-- Partition of a pool by division, in insertion order (the wildcard
pre-step's `byDiv`). -/
def groupByDivision (pool : List Team) : JMap (List Team) :=
  pool.foldl (fun m t => jset m t.division (jgetD m t.division [] ++ [t])) []

/-- The representative a division's candidates send to the wildcard step
list: a single candidate directly, otherwise the best by the division
procedure. The source pushes `best[0]`; `best` is provably nonempty, and
`take 1` models that. -/
def divisionRepresentative (pick : List Team → ℕ) (statsMap : TeamStatsMap)
    (gameResults : JMap String) (opponentsMap : JMap (List String))
    (teamGamesMap : JMap (List Game)) (divTeams : List Team) : List Team :=
  match divTeams with
  | [t] => [t]
  | l => (findTiebreakerWinnerDiv pick l statsMap gameResults
      opponentsMap teamGamesMap).take 1

/-- The wildcard pre-step: keep single-team divisions, and for each division
with several candidates keep the best by the division procedure. -/
def wildcardPrestep (pick : List Team → ℕ) (statsMap : TeamStatsMap)
    (gameResults : JMap String) (opponentsMap : JMap (List String))
    (teamGamesMap : JMap (List Game)) (pool : List Team) : List Team :=
  (groupByDivision pool).foldl
    (fun filtered entry =>
      filtered ++ divisionRepresentative pick statsMap gameResults opponentsMap
        teamGamesMap entry.2)
    []

/-- The full `findTiebreakerWinner`: wildcard pre-step (for the wildcard
procedure) followed by the step loop with the `MAX_ITERATIONS` budget. -/
def findTiebreakerWinner (pick : List Team → ℕ) (candidates : List Team)
    (statsMap : TeamStatsMap) (gameResults : JMap String) (type : TiebreakType)
    (opponentsMap : JMap (List String)) (teamGamesMap : JMap (List Game)) :
    List Team :=
  let pool :=
    if type = TiebreakType.wildcard then
      wildcardPrestep pick statsMap gameResults opponentsMap teamGamesMap candidates
    else candidates
  runTiebreakSteps pick type statsMap gameResults opponentsMap teamGamesMap pool

/-- The loop of `resolveTiedGroup`: repeatedly extract the next-best subset
and append it to the ranking. `fuel` models the (provably sufficient) number
of iterations; on exhaustion the untouched remainder is appended. -/
def resolveLoop (pick : List Team → ℕ) (statsMap : TeamStatsMap)
    (gameResults : JMap String) (type : TiebreakType)
    (opponentsMap : JMap (List String)) (teamGamesMap : JMap (List Game)) :
    List Team → List Team → ℕ → List Team
  | ranked, remaining, 0 => ranked ++ remaining
  | ranked, remaining, fuel + 1 =>
      match remaining with
      | [] => ranked
      | [t] => ranked ++ [t]
      | _ =>
          let winner := findTiebreakerWinner pick remaining statsMap gameResults
            type opponentsMap teamGamesMap
          let winnerIds := winner.map (·.id)
          resolveLoop pick statsMap gameResults type opponentsMap teamGamesMap
            (ranked ++ winner)
            (remaining.filter (fun t => decide (¬ t.id ∈ winnerIds))) fuel

/-- Resolve one tied group into a full ranking. -/
def resolveTiedGroup (pick : List Team → ℕ) (group : List Team)
    (statsMap : TeamStatsMap) (gameResults : JMap String) (type : TiebreakType)
    (opponentsMap : JMap (List String)) (teamGamesMap : JMap (List Game)) :
    List Team :=
  resolveLoop pick statsMap gameResults type opponentsMap teamGamesMap
    [] group group.length

/-- The grouping loop of `sortTeams`: split the (descending-sorted) list into
maximal runs of win percentage within `EPSILON` of the run's first element,
resolving each run of two or more via `resolveTiedGroup`. -/
def groupLoop (pick : List Team → ℕ) (statsMap : TeamStatsMap)
    (gameResults : JMap String) (type : TiebreakType)
    (opponentsMap : JMap (List String)) (teamGamesMap : JMap (List Game)) :
    List Team → List Team
  | [] => []
  | t :: rest =>
      let currentPct := getWinPct (jget statsMap t.id)
      let near : Team → Bool := fun u =>
        decide (qabs (getWinPct (jget statsMap u.id) - currentPct) < EPSILON)
      let tiedGroup := t :: rest.takeWhile near
      let rest2 := rest.dropWhile near
      (if tiedGroup.length == 1 then tiedGroup
       else resolveTiedGroup pick tiedGroup statsMap gameResults type
         opponentsMap teamGamesMap)
      ++ groupLoop pick statsMap gameResults type opponentsMap teamGamesMap rest2
termination_by l => l.length
decreasing_by
  simp only [List.length_cons]
  exact Nat.lt_succ_of_le ((List.dropWhile_sublist _).length_le)

/-- The main tiebreaker engine entry point `sortTeams`: sort descending by
overall win percentage, then resolve each tied group. -/
def sortTeams (pick : List Team → ℕ) (teams : List Team)
    (statsMap : TeamStatsMap) (allGames : List Game) (gameResults : JMap String)
    (type : TiebreakType) (opponentsMap : JMap (List String))
    (teamGamesMap : Option (JMap (List Game))) : List Team :=
  let byWinPct := jsSortBy
    (fun a b => decide (getWinPct (jget statsMap b.id) ≤ getWinPct (jget statsMap a.id)))
    teams
  groupLoop pick statsMap gameResults type opponentsMap (teamGamesMap.getD [])
    byWinPct

-- --- SCHEDULE STRENGTH (src/simulation/scheduleStrength.ts) ---

/-- Pointwise update of a function modelling a typed array cell write. -/
def updateFn {α : Type} (f : ℕ → α) (i : ℕ) (v : α) : ℕ → α :=
  fun j => if j = i then v else f j

/-- Bump a counter-array cell by one. -/
def bumpFn (f : ℕ → ℕ) (i : ℕ) : ℕ → ℕ :=
  updateFn f i (f i + 1)

/-- The guarded ratio used for SOS/SOV: `total > 0 ? wins / total : 0`. -/
def ratioOrZero (wins total : ℚ) : ℚ :=
  if 0 < total then wins / total else 0

/-- First pass of `computeScheduleStrength`: per-opponent weighted wins and
totals, indexed by `teamIdToIdx`. Writes with an index at or above `numTeams`
are dropped, as JS typed-array writes out of bounds are (never reached with
well-formed indices). -/
def oppArrayStep (teamIdToIdx : JMap ℕ) (numTeams : ℕ)
    (arrs : (ℕ → ℚ) × (ℕ → ℚ)) (entry : String × SeasonStats) :
    (ℕ → ℚ) × (ℕ → ℚ) :=
  match jget teamIdToIdx entry.1 with
  | none => arrs
  | some idx =>
      if idx < numTeams then
        (updateFn arrs.1 idx ((entry.2.wins : ℚ) + (1/2 : ℚ) * (entry.2.ties : ℚ)),
         updateFn arrs.2 idx ((entry.2.wins : ℚ) + (entry.2.losses : ℚ) + (entry.2.ties : ℚ)))
      else arrs

def buildOppArrays (statsMap : TeamStatsMap) (teamIdToIdx : JMap ℕ)
    (numTeams : ℕ) : (ℕ → ℚ) × (ℕ → ℚ) :=
  statsMap.foldl (oppArrayStep teamIdToIdx numTeams) (fun _ => 0, fun _ => 0)

/-- Accumulation of opponent weighted wins and totals over one team's
opponent list (one entry per game, duplicates included); opponents without an
index are skipped. -/
def accumOppStep (teamIdToIdx : JMap ℕ) (wArr tArr : ℕ → ℚ)
    (acc : ℚ × ℚ) (oppId : String) : ℚ × ℚ :=
  match jget teamIdToIdx oppId with
  | none => acc
  | some oppIdx => (acc.1 + wArr oppIdx, acc.2 + tArr oppIdx)

def accumOpp (teamIdToIdx : JMap ℕ) (wArr tArr : ℕ → ℚ)
    (opponents : List String) : ℚ × ℚ :=
  opponents.foldl (accumOppStep teamIdToIdx wArr tArr) (0, 0)

/-- The per-team `sos`/`sov` update of `computeScheduleStrength` (the body of
its second `forEach`). -/
def scheduleStrengthUpdate (scheduleMap winsAgainst : JMap (List String))
    (teamIdToIdx : JMap ℕ) (wArr tArr : ℕ → ℚ) (k : String)
    (v : SeasonStats) : SeasonStats :=
  { v with
      sos := ratioOrZero (accumOpp teamIdToIdx wArr tArr (jgetD scheduleMap k [])).1
        (accumOpp teamIdToIdx wArr tArr (jgetD scheduleMap k [])).2,
      sov := ratioOrZero (accumOpp teamIdToIdx wArr tArr (jgetD winsAgainst k [])).1
        (accumOpp teamIdToIdx wArr tArr (jgetD winsAgainst k [])).2 }

/-- The `computeScheduleStrength` of scheduleStrength.ts. The source mutates
each stats record's `sos`/`sov` in place; here the updated map is returned. -/
def computeScheduleStrength (statsMap : TeamStatsMap)
    (scheduleMap : JMap (List String)) (winsAgainst : JMap (List String))
    (teamIdToIdx : JMap ℕ) (numTeams : ℕ) : TeamStatsMap :=
  statsMap.map (fun entry =>
    (entry.1,
      scheduleStrengthUpdate scheduleMap winsAgainst teamIdToIdx
        (buildOppArrays statsMap teamIdToIdx numTeams).1
        (buildOppArrays statsMap teamIdToIdx numTeams).2 entry.1 entry.2))

-- --- ELO MODEL (src/services/eloService.ts, parts used by monteCarlo.ts) ---

/-- Home-field advantage in Elo points. -/
def HOME_FIELD_ADVANTAGE : ℚ := 48

/-- K-factor of the Elo updates in monteCarlo.ts. -/
def K_FACTOR : ℚ := 20

/-- Tie probability mass reserved per simulated game. -/
def TIE_PROB : ℚ := 3 / 1000

/-- Win probability from Elo ratings; `pow10` is the oracle for
`Math.pow(10, x)`. The result is clamped to `[0.01, 0.99]`. -/
def calculateWinProbability (pow10 : ℚ → ℚ) (teamElo opponentElo : ℚ)
    (isHome : Bool) : ℚ :=
  let hfa := if isHome then HOME_FIELD_ADVANTAGE else -HOME_FIELD_ADVANTAGE
  let diff := teamElo - opponentElo + hfa
  let prob := 1 / (1 + pow10 (-diff / 400))
  qmax (1/100) (qmin (99/100) prob)

/-- Elo update after a tie: both ratings move toward each other by a
fraction of the expectation gap. -/
def updateEloAfterTie (pow10 : ℚ → ℚ) (team1Elo team2Elo : ℚ)
    (team1WasHome : Bool) : ℚ × ℚ :=
  let team1Expected := calculateWinProbability pow10 team1Elo team2Elo team1WasHome
  let eloChange := K_FACTOR * ((1/2 : ℚ) - team1Expected)
  (team1Elo + eloChange, team2Elo - eloChange)

-- --- MONTE CARLO SIMULATOR (monteCarlo.ts) ---

/-- The environment oracles of the simulator: the `Math.random()` stream
(indexed by a running draw counter), the coin-toss choice, and
`Math.pow(10, x)`. -/
structure SimOracles where
  urand : ℕ → ℚ
  pick : List Team → ℕ
  pow10 : ℚ → ℚ

/-- Per-game pre-computed info (`gameInfo` in runSimulation). -/
structure GameInfo where
  game : Game
  home : Team
  away : Team
  sameConf : Bool
  sameDiv : Bool
  hasMarketOdds : Bool
  marketOdds : ℚ
  userPick : Option String
deriving DecidableEq

/-- Placeholder team for the source's non-null `teamById.get(...)!`
assertions (never missing for well-formed inputs). -/
def defaultTeam : Team :=
  { id := "", name := "", wins := 0, losses := 0, ties := 0,
    divisionWins := 0, divisionLosses := 0, divisionTies := 0,
    conferenceWins := 0, conferenceLosses := 0, conferenceTies := 0,
    conference := "", division := "" }

/-- One row of the returned team results. -/
structure SimResult where
  teamId : String
  teamName : String
  madePlayoffs : ℕ
  wonDivision : ℕ
  madeWildcard : ℕ
  wonFirstSeed : ℕ
  totalSimulations : ℕ
  playoffProb : ℚ
  divisionProb : ℚ
  wildcardProb : ℚ
  firstSeedProb : ℚ
deriving DecidableEq

/-- The per-trial mutable state threaded through the simulated games. -/
structure TrialState where
  statsMap : TeamStatsMap
  gameResults : JMap String
  simElo : ℕ → ℚ
  simWinsAgainst : JMap (List String)
  gameHomeWins : ℕ → ℕ
  ctr : ℕ

/-- The cross-trial aggregate counters (typed arrays in the source, modelled
as functions from the team index), plus the per-game home-win tallies and
the running random-draw counter. -/
structure AcrossState where
  madePlayoffs : ℕ → ℕ
  wonDivision : ℕ → ℕ
  madeWildcard : ℕ → ℕ
  wonFirstSeed : ℕ → ℕ
  gameHomeWins : ℕ → ℕ
  ctr : ℕ

/-- The precomputed, trial-invariant configuration built by `runSimulation`
before the trial loop. -/
structure SimConfig where
  initialTeams : List Team
  allGames : List Game
  teamIdToIdx : JMap ℕ
  numTeams : ℕ
  remainingGames : List Game
  gameIdToIdx : JMap ℕ
  scheduleMap : JMap (List String)
  teamGamesMap : JMap (List Game)
  initialWinsAgainst : JMap (List String)
  finishedResults : JMap String
  orderedGameInfos : List GameInfo
  afcByDiv : JMap (List Team)
  nfcByDiv : JMap (List Team)
  baseStatsTemplate : List SeasonStats
  baseElo : ℕ → ℚ

/-- The fixed division keys used to pre-split each conference. -/
def divisionNames : List String := ["North", "South", "East", "West"]

/-- Append `v` to the list at `k` only when the key is present (models the
optional-chaining `map.get(k)?.push(v)`). -/
def jpushIfPresent {α : Type} (m : JMap (List α)) (k : String) (v : α) :
    JMap (List α) :=
  match jget m k with
  | none => m
  | some cur => jset m k (cur ++ [v])

/-- Build `scheduleMap`, `teamGamesMap` and `initialWinsAgainst` from the
teams and the full game list. -/
def buildScheduleMaps (initialTeams : List Team) (allGames : List Game) :
    JMap (List String) × JMap (List Game) × JMap (List String) :=
  let empty3 :=
    ( initialTeams.foldl (fun m t => jset m t.id ([] : List String)) [],
      initialTeams.foldl (fun m t => jset m t.id ([] : List Game)) [],
      initialTeams.foldl (fun m t => jset m t.id ([] : List String)) [] )
  allGames.foldl
    (fun maps g =>
      let schedule := jpushIfPresent (jpushIfPresent maps.1 g.homeTeamId g.awayTeamId)
        g.awayTeamId g.homeTeamId
      let teamGames := jpushIfPresent (jpushIfPresent maps.2.1 g.homeTeamId g)
        g.awayTeamId g
      let winsA :=
        if g.isFinished then
          match g.winnerId with
          | some w =>
              if w = g.homeTeamId then jpushIfPresent maps.2.2 g.homeTeamId g.awayTeamId
              else if w = g.awayTeamId then jpushIfPresent maps.2.2 g.awayTeamId g.homeTeamId
              else maps.2.2
          | none => maps.2.2
        else maps.2.2
      (schedule, teamGames, winsA))
    empty3

/-- Results of the already-finished games. -/
def buildFinishedResults (allGames : List Game) : JMap String :=
  allGames.foldl
    (fun m g =>
      if g.isFinished then
        match g.winnerId with
        | some w => jset m g.id w
        | none => m
      else m)
    []

/-- Map from team id to its index in the input order. -/
def buildTeamIdToIdx (initialTeams : List Team) : JMap ℕ :=
  initialTeams.enum.foldl (fun m p => jset m p.2.id p.1) []

/-- Map from remaining-game id to its index. -/
def buildGameIdToIdx (remainingGames : List Game) : JMap ℕ :=
  remainingGames.enum.foldl (fun m p => jset m p.2.id p.1) []

/-- Per-game pre-computed info for a remaining game. -/
def buildGameInfo (teamById : JMap Team) (oddsMap : JMap ℚ)
    (userPicks : JMap String) (g : Game) : GameInfo :=
  let home := jgetD teamById g.homeTeamId defaultTeam
  let away := jgetD teamById g.awayTeamId defaultTeam
  { game := g, home := home, away := away,
    sameConf := decide (home.conference = away.conference),
    sameDiv := decide (home.division = away.division),
    hasMarketOdds := (jget oddsMap g.id).isSome,
    marketOdds := jgetD oddsMap g.id 0,
    userPick := jget userPicks g.id }

/-- Remaining games' info, flattened in ascending week order (the source's
grouping by week followed by iteration over the ascending week list). -/
def buildOrderedGameInfos (teamById : JMap Team) (oddsMap : JMap ℚ)
    (userPicks : JMap String) (remainingGames : List Game) : List GameInfo :=
  let weeks := jsSortBy (fun a b => a ≤ b) (jsSetOf (remainingGames.map (·.week)))
  let infos := remainingGames.map (buildGameInfo teamById oddsMap userPicks)
  weeks.flatMap (fun w => infos.filter (fun gi => gi.game.week == w))

/-- Pre-split of one conference's teams by division. -/
def buildByDiv (confTeams : List Team) : JMap (List Team) :=
  divisionNames.foldl
    (fun m d => jset m d (confTeams.filter (fun t => decide (t.division = d)))) []

/-- Build the full trial-invariant configuration. -/
def buildSimConfig (initialTeams : List Team) (allGames : List Game)
    (oddsMap : JMap ℚ) (kalshiEloMap : JMap ℚ) (userPicks : JMap String) :
    SimConfig :=
  let remainingGames := allGames.filter (fun g => !g.isFinished)
  let maps := buildScheduleMaps initialTeams allGames
  let teamById := initialTeams.foldl (fun m t => jset m t.id t) []
  let afcTeams := initialTeams.filter (fun t => decide (t.conference = "AFC"))
  let nfcTeams := initialTeams.filter (fun t => decide (t.conference = "NFC"))
  { initialTeams := initialTeams,
    allGames := allGames,
    teamIdToIdx := buildTeamIdToIdx initialTeams,
    numTeams := initialTeams.length,
    remainingGames := remainingGames,
    gameIdToIdx := buildGameIdToIdx remainingGames,
    scheduleMap := maps.1,
    teamGamesMap := maps.2.1,
    initialWinsAgainst := maps.2.2,
    finishedResults := buildFinishedResults allGames,
    orderedGameInfos := buildOrderedGameInfos teamById oddsMap userPicks remainingGames,
    afcByDiv := buildByDiv afcTeams,
    nfcByDiv := buildByDiv nfcTeams,
    baseStatsTemplate := initialTeams.map (fun t =>
      { wins := t.wins, losses := t.losses, ties := t.ties,
        divWins := t.divisionWins, divLosses := t.divisionLosses,
        divTies := t.divisionTies, confWins := t.conferenceWins,
        confLosses := t.conferenceLosses, confTies := t.conferenceTies,
        sov := 0, sos := 0 }),
    baseElo := fun i =>
      match initialTeams[i]? with
      | some t => jgetD kalshiEloMap t.id 0
      | none => 0 }

/-- Fresh per-trial stats clones from the template. -/
def initTrialStats (initialTeams : List Team)
    (baseStatsTemplate : List SeasonStats) : TeamStatsMap :=
  (initialTeams.zip baseStatsTemplate).foldl
    (fun m p => jset m p.1.id { p.2 with sov := 0, sos := 0 }) []

/-- Update of the two teams' counters and Elo ratings for one simulated game
outcome (the inlined stats/Elo update blocks of the trial loop). The source
mutates the two stats objects through references; games never pair a team
with itself, so sequential map writes are equivalent. -/
def applyGameOutcome (cfg : SimConfig) (o : SimOracles) (gi : GameInfo)
    (isTie homeWins : Bool) (st : TrialState) : TrialState :=
  let homeStats := jgetD st.statsMap gi.home.id defaultStats
  let awayStats := jgetD st.statsMap gi.away.id defaultStats
  let homeIdx := jgetD cfg.teamIdToIdx gi.home.id 0
  let awayIdx := jgetD cfg.teamIdToIdx gi.away.id 0
  let homeElo := st.simElo homeIdx
  let awayElo := st.simElo awayIdx
  if isTie then
    let homeStats1 := { homeStats with ties := homeStats.ties + 1 }
    let awayStats1 := { awayStats with ties := awayStats.ties + 1 }
    let homeStats2 :=
      if gi.sameConf then
        if gi.sameDiv then
          { homeStats1 with confTies := homeStats1.confTies + 1,
                            divTies := homeStats1.divTies + 1 }
        else { homeStats1 with confTies := homeStats1.confTies + 1 }
      else homeStats1
    let awayStats2 :=
      if gi.sameConf then
        if gi.sameDiv then
          { awayStats1 with confTies := awayStats1.confTies + 1,
                            divTies := awayStats1.divTies + 1 }
        else { awayStats1 with confTies := awayStats1.confTies + 1 }
      else awayStats1
    let elos := updateEloAfterTie o.pow10 homeElo awayElo true
    { st with
      statsMap := jset (jset st.statsMap gi.home.id homeStats2) gi.away.id awayStats2,
      simElo := updateFn (updateFn st.simElo homeIdx elos.1) awayIdx elos.2 }
  else if homeWins then
    let homeStats1 := { homeStats with wins := homeStats.wins + 1 }
    let awayStats1 := { awayStats with losses := awayStats.losses + 1 }
    let homeStats2 :=
      if gi.sameConf then
        if gi.sameDiv then
          { homeStats1 with confWins := homeStats1.confWins + 1,
                            divWins := homeStats1.divWins + 1 }
        else { homeStats1 with confWins := homeStats1.confWins + 1 }
      else homeStats1
    let awayStats2 :=
      if gi.sameConf then
        if gi.sameDiv then
          { awayStats1 with confLosses := awayStats1.confLosses + 1,
                            divLosses := awayStats1.divLosses + 1 }
        else { awayStats1 with confLosses := awayStats1.confLosses + 1 }
      else awayStats1
    let winnerExpected := calculateWinProbability o.pow10 homeElo awayElo true
    let eloChange := K_FACTOR * (1 - winnerExpected)
    { st with
      statsMap := jset (jset st.statsMap gi.home.id homeStats2) gi.away.id awayStats2,
      simWinsAgainst := jpushIfPresent st.simWinsAgainst gi.home.id gi.away.id,
      simElo := updateFn (updateFn st.simElo homeIdx (homeElo + eloChange))
        awayIdx (awayElo - eloChange) }
  else
    let awayStats1 := { awayStats with wins := awayStats.wins + 1 }
    let homeStats1 := { homeStats with losses := homeStats.losses + 1 }
    let awayStats2 :=
      if gi.sameConf then
        if gi.sameDiv then
          { awayStats1 with confWins := awayStats1.confWins + 1,
                            divWins := awayStats1.divWins + 1 }
        else { awayStats1 with confWins := awayStats1.confWins + 1 }
      else awayStats1
    let homeStats2 :=
      if gi.sameConf then
        if gi.sameDiv then
          { homeStats1 with confLosses := homeStats1.confLosses + 1,
                            divLosses := homeStats1.divLosses + 1 }
        else { homeStats1 with confLosses := homeStats1.confLosses + 1 }
      else homeStats1
    let winnerExpected := calculateWinProbability o.pow10 awayElo homeElo false
    let eloChange := K_FACTOR * (1 - winnerExpected)
    { st with
      statsMap := jset (jset st.statsMap gi.home.id homeStats2) gi.away.id awayStats2,
      simWinsAgainst := jpushIfPresent st.simWinsAgainst gi.away.id gi.home.id,
      simElo := updateFn (updateFn st.simElo awayIdx (awayElo + eloChange))
        homeIdx (homeElo - eloChange) }

/-- Simulate one remaining game: honor a user pick, otherwise draw one
uniform value; reserve `TIE_PROB` for a tie and rescale the rest against the
effective win probability. -/
def simulateGame (cfg : SimConfig) (o : SimOracles) (st : TrialState)
    (gi : GameInfo) : TrialState :=
  let homeIdx := jgetD cfg.teamIdToIdx gi.home.id 0
  let awayIdx := jgetD cfg.teamIdToIdx gi.away.id 0
  let outcome : String × Bool × Bool × ℕ :=
    match gi.userPick with
    | some p =>
        if p = "TIE" then (p, true, false, st.ctr)
        else (p, false, decide (p = gi.home.id), st.ctr)
    | none =>
        let winProb :=
          if gi.hasMarketOdds then gi.marketOdds
          else calculateWinProbability o.pow10 (st.simElo homeIdx)
            (st.simElo awayIdx) true
        let rand := o.urand st.ctr
        if rand < TIE_PROB then ("TIE", true, false, st.ctr + 1)
        else
          let adjustedRand := (rand - TIE_PROB) / (1 - TIE_PROB)
          let homeWins := decide (adjustedRand < winProb)
          ((if adjustedRand < winProb then gi.home.id else gi.away.id),
            false, homeWins, st.ctr + 1)
  let st1 := { st with
    gameResults := jset st.gameResults gi.game.id outcome.1,
    ctr := outcome.2.2.2 }
  let st2 :=
    if outcome.2.2.1 then
      match jget cfg.gameIdToIdx gi.game.id with
      | some gameIdx => { st1 with gameHomeWins := bumpFn st1.gameHomeWins gameIdx }
      | none => st1
    else st1
  applyGameOutcome cfg o gi outcome.2.1 outcome.2.2.1 st2

/-- Output of `processConference` for one conference. -/
structure ConfOutcome where
  winners : List Team
  wildcards : List Team
  firstSeed : Option Team
deriving DecidableEq

/-- Rank one conference: per-division ranking takes the top team as division
winner and the rest into the wildcard pool; winners and the wildcard pool
are then seeded with the wildcard procedure, keeping the top 3 wildcards. -/
def processConference (pick : List Team → ℕ) (divisionMap : JMap (List Team))
    (statsMap : TeamStatsMap) (allGames : List Game) (gameResults : JMap String)
    (scheduleMap : JMap (List String)) (teamGamesMap : JMap (List Game)) :
    ConfOutcome :=
  let pools := divisionNames.foldl
    (fun acc d =>
      let divTeams := jgetD divisionMap d []
      let sorted := sortTeams pick divTeams statsMap allGames gameResults
        TiebreakType.division scheduleMap (some teamGamesMap)
      match sorted with
      | [] => acc
      | w :: rest => (acc.1 ++ [w], acc.2 ++ rest))
    (([] : List Team), ([] : List Team))
  let seededWinners := sortTeams pick pools.1 statsMap allGames gameResults
    TiebreakType.wildcard scheduleMap (some teamGamesMap)
  let seededWildcards := sortTeams pick pools.2 statsMap allGames gameResults
    TiebreakType.wildcard scheduleMap (some teamGamesMap)
  { winners := seededWinners,
    wildcards := seededWildcards.take 3,
    firstSeed := seededWinners.head? }

/-- Run one trial's game simulation, schedule-strength pass and conference
ranking; returns the end-of-trial state and both conference outcomes. -/
def runTrialOutcome (cfg : SimConfig) (o : SimOracles) (gameHomeWins : ℕ → ℕ)
    (ctr : ℕ) : TrialState × ConfOutcome × ConfOutcome :=
  let st0 : TrialState :=
    { statsMap := initTrialStats cfg.initialTeams cfg.baseStatsTemplate,
      gameResults := cfg.finishedResults,
      simElo := cfg.baseElo,
      simWinsAgainst := cfg.initialWinsAgainst,
      gameHomeWins := gameHomeWins,
      ctr := ctr }
  let st1 := cfg.orderedGameInfos.foldl (simulateGame cfg o) st0
  let stats2 := computeScheduleStrength st1.statsMap cfg.scheduleMap
    st1.simWinsAgainst cfg.teamIdToIdx cfg.numTeams
  let st2 := { st1 with statsMap := stats2 }
  let afc := processConference o.pick cfg.afcByDiv stats2 cfg.allGames
    st1.gameResults cfg.scheduleMap cfg.teamGamesMap
  let nfc := processConference o.pick cfg.nfcByDiv stats2 cfg.allGames
    st1.gameResults cfg.scheduleMap cfg.teamGamesMap
  (st2, afc, nfc)

/-- Credit a list of division winners: made playoffs and won division. -/
def creditWinners (teamIdToIdx : JMap ℕ) (a : AcrossState) (ts : List Team) :
    AcrossState :=
  ts.foldl
    (fun a t =>
      let idx := jgetD teamIdToIdx t.id 0
      { a with madePlayoffs := bumpFn a.madePlayoffs idx,
               wonDivision := bumpFn a.wonDivision idx })
    a

/-- Credit a list of wildcard qualifiers: made playoffs and made wildcard. -/
def creditWildcards (teamIdToIdx : JMap ℕ) (a : AcrossState) (ts : List Team) :
    AcrossState :=
  ts.foldl
    (fun a t =>
      let idx := jgetD teamIdToIdx t.id 0
      { a with madePlayoffs := bumpFn a.madePlayoffs idx,
               madeWildcard := bumpFn a.madeWildcard idx })
    a

/-- Credit a conference's first seed, when present. -/
def creditFirstSeed (teamIdToIdx : JMap ℕ) (a : AcrossState)
    (seed : Option Team) : AcrossState :=
  match seed with
  | some t => { a with wonFirstSeed := bumpFn a.wonFirstSeed (jgetD teamIdToIdx t.id 0) }
  | none => a

/-- One full trial: simulate, rank, and add this trial's credits to the
aggregate counters. -/
def runTrial (cfg : SimConfig) (o : SimOracles) (a : AcrossState) : AcrossState :=
  let out := runTrialOutcome cfg o a.gameHomeWins a.ctr
  let afc := out.2.1
  let nfc := out.2.2
  let a1 := { a with gameHomeWins := out.1.gameHomeWins, ctr := out.1.ctr }
  let a2 := creditWinners cfg.teamIdToIdx a1 afc.winners
  let a3 := creditWinners cfg.teamIdToIdx a2 nfc.winners
  let a4 := creditWildcards cfg.teamIdToIdx a3 afc.wildcards
  let a5 := creditWildcards cfg.teamIdToIdx a4 nfc.wildcards
  let a6 := creditFirstSeed cfg.teamIdToIdx a5 afc.firstSeed
  creditFirstSeed cfg.teamIdToIdx a6 nfc.firstSeed

/-- The initial aggregate state (zeroed typed arrays, fresh random stream). -/
def initAcrossState : AcrossState :=
  { madePlayoffs := fun _ => 0, wonDivision := fun _ => 0,
    madeWildcard := fun _ => 0, wonFirstSeed := fun _ => 0,
    gameHomeWins := fun _ => 0, ctr := 0 }

/-- One returned result row for the team at index `idx`. In the rational
model a division by a zero trial count yields `0` (JS produces `NaN`). -/
def mkSimResult (numSimulations : ℕ) (final : AcrossState) (idx : ℕ)
    (t : Team) : SimResult :=
  { teamId := t.id, teamName := t.name,
    madePlayoffs := final.madePlayoffs idx,
    wonDivision := final.wonDivision idx,
    madeWildcard := final.madeWildcard idx,
    wonFirstSeed := final.wonFirstSeed idx,
    totalSimulations := numSimulations,
    playoffProb := (final.madePlayoffs idx : ℚ) / (numSimulations : ℚ),
    divisionProb := (final.wonDivision idx : ℚ) / (numSimulations : ℚ),
    wildcardProb := (final.madeWildcard idx : ℚ) / (numSimulations : ℚ),
    firstSeedProb := (final.wonFirstSeed idx : ℚ) / (numSimulations : ℚ) }

/-- Everything `runSimulation` does after validation passes. -/
def runSimulationBody (o : SimOracles) (initialTeams : List Team)
    (allGames : List Game) (numSimulations : ℕ) (oddsMap : JMap ℚ)
    (kalshiEloMap : JMap ℚ) (userPicks : JMap String) :
    List SimResult × JMap ℚ :=
  let cfg := buildSimConfig initialTeams allGames oddsMap kalshiEloMap userPicks
  let final := (List.range numSimulations).foldl (fun a _ => runTrial cfg o a)
    initAcrossState
  let simulatedOdds : JMap ℚ := cfg.remainingGames.enum.map
    (fun p => (p.2.id, (final.gameHomeWins p.1 : ℚ) / (numSimulations : ℚ)))
  let teamResults := jsSortBy (fun a b => decide (b.playoffProb ≤ a.playoffProb))
    (initialTeams.enum.map (fun p => mkSimResult numSimulations final p.1 p.2))
  (teamResults, simulatedOdds)

/-- The `runSimulation` of monteCarlo.ts. Thrown configuration errors are
modelled with `Except.error`; the validation happens before any trial work. -/
def runSimulation (o : SimOracles) (initialTeams : List Team)
    (allGames : List Game) (numSimulations : ℕ) (oddsMap : JMap ℚ)
    (kalshiEloMap : JMap ℚ) (userPicks : JMap String) :
    Except String (List SimResult × JMap ℚ) :=
  if kalshiEloMap.isEmpty then
    .error "Kalshi Elo map is required. Cannot run simulation without market data."
  else
    match initialTeams.find? (fun t => (jget kalshiEloMap t.id).isNone) with
    | some t =>
        .error ("Missing Kalshi Elo for team: " ++ t.name ++ " (" ++ t.id ++ ")")
    | none =>
        .ok (runSimulationBody o initialTeams allGames numSimulations oddsMap
          kalshiEloMap userPicks)

-- --- C8: frame model of sortTeams ---

/-- The shared collections handed to `sortTeams`, threaded as explicit state.
Within the whole `sortTeams` call tree the source only reads these inputs
(`Map.get`/`Map.has`/iteration); the single in-place `Array.prototype.sort`
is applied to the spread copy `[...teams]`, and every `push`/`set` targets a
locally created array or map. -/
structure SortInputs where
  teams : List Team
  statsMap : TeamStatsMap
  allGames : List Game
  gameResults : JMap String
  opponentsMap : JMap (List String)
  teamGamesMap : Option (JMap (List Game))

/-- State-threaded `sortTeams`: reads the input collections, sorts a copy of
the team list, resolves the tied groups, and returns the input state. -/
def sortTeamsS (pick : List Team → ℕ) (type : TiebreakType) (s : SortInputs) :
    List Team × SortInputs :=
  let byWinPct := jsSortBy
    (fun a b => decide (getWinPct (jget s.statsMap b.id) ≤ getWinPct (jget s.statsMap a.id)))
    s.teams
  (groupLoop pick s.statsMap s.gameResults type s.opponentsMap
    (s.teamGamesMap.getD []) byWinPct, s)

-- --- Helper lemmas ---

theorem jget_map_value {α β : Type} (f : String → α → β) (m : JMap α) (k : String) :
    jget (m.map (fun e => (e.1, f e.1 e.2))) k = (jget m k).map (f k) := by
  induction m with
  | nil => rfl
  | cons e rest ih =>
      simp only [List.map_cons, jget]
      by_cases h : e.1 = k
      · simp [h]
      · simp [h, ih]

theorem filter_of_map {α β : Type} (l : List α) (f : α → β) (p : β → Bool) :
    (l.map f).filter p = (l.filter (fun a => p (f a))).map f := by
  induction l with
  | nil => rfl
  | cons a rest ih =>
      simp only [List.map_cons, List.filter_cons]
      by_cases h : p (f a) = true
      · simp [h, ih]
      · simp [h, ih]

theorem qmax_choice (a b : ℚ) : qmax a b = a ∨ qmax a b = b := by
  unfold qmax; split
  · right; rfl
  · left; rfl

theorem le_qmax_left (a b : ℚ) : a ≤ qmax a b := by
  unfold qmax; split
  · assumption
  · exact le_refl a

theorem le_qmax_right (a b : ℚ) : b ≤ qmax a b := by
  unfold qmax; split
  · exact le_refl b
  · exact le_of_lt (lt_of_not_le (by assumption))

theorem foldl_max_eq_or_mem (rest : List ℚ) :
    ∀ q : ℚ, List.foldl qmax q rest = q ∨ List.foldl qmax q rest ∈ rest := by
  induction rest with
  | nil => intro q; left; rfl
  | cons r rest ih =>
      intro q
      simp only [List.foldl_cons]
      rcases ih (qmax q r) with h | h
      · rcases qmax_choice q r with hq | hr
        · left; rw [h, hq]
        · right; rw [h, hr]; exact List.mem_cons_self r rest
      · right; exact List.mem_cons_of_mem r h

theorem le_foldl_max_init (rest : List ℚ) :
    ∀ q : ℚ, q ≤ List.foldl qmax q rest := by
  induction rest with
  | nil => intro q; exact le_refl q
  | cons r rest ih =>
      intro q
      simp only [List.foldl_cons]
      exact le_trans (le_qmax_left q r) (ih (qmax q r))

theorem foldl_max_le_of_mem (rest : List ℚ) :
    ∀ q x : ℚ, x ∈ rest → x ≤ List.foldl qmax q rest := by
  induction rest with
  | nil => intro q x hx; simp at hx
  | cons r rest ih =>
      intro q x hx
      simp only [List.foldl_cons]
      rcases List.mem_cons.mp hx with hx | hx
      · rw [hx]; exact le_trans (le_qmax_right q r) (le_foldl_max_init rest (qmax q r))
      · exact ih (qmax q r) x hx

theorem map_fst_pair {α β : Type} (l : List α) (g : α → β) :
    List.map (fun x => x.1) (List.map (fun a => (a, g a)) l) = l := by
  induction l with
  | nil => rfl
  | cons a rest ih => simp only [List.map_cons, ih]

theorem jsMaxQ_mem (l : List ℚ) (h : l ≠ []) : jsMaxQ l ∈ l := by
  match l, h with
  | q :: rest, _ =>
      simp only [jsMaxQ]
      rcases foldl_max_eq_or_mem rest q with h1 | h1
      · rw [h1]; exact List.mem_cons_self q rest
      · exact List.mem_cons_of_mem q h1

theorem jsMaxQ_le (l : List ℚ) (x : ℚ) (hx : x ∈ l) : x ≤ jsMaxQ l := by
  match l with
  | q :: rest =>
      simp only [jsMaxQ]
      rcases List.mem_cons.mp hx with h1 | h1
      · rw [h1]; exact le_foldl_max_init rest q
      · exact foldl_max_le_of_mem rest q x h1

-- --- C7 ---

/-- C7. Every win-percentage ratio derived from counters — overall, division,
conference, head-to-head, common games, and the Strength of Victory /
Strength of Schedule ratio — evaluates to exactly `0` when the corresponding
games-played denominator is `0` (and for a missing stats record); in the
rational model of the arithmetic no `NaN` can arise from a 0-game ratio. -/
theorem zero_denominator_ratios_zero :
    getWinPct none = 0
    ∧ (∀ s : SeasonStats, s.wins + s.losses + s.ties = 0 → getWinPct (some s) = 0)
    ∧ (∀ s : SeasonStats, s.divWins + s.divLosses + s.divTies = 0 → getDivPct s = 0)
    ∧ (∀ s : SeasonStats, s.confWins + s.confLosses + s.confTies = 0 → getConfPct s = 0)
    ∧ (∀ r : H2HRecord, r.wins + r.losses + r.ties = 0 → getH2HPct r = 0)
    ∧ (∀ c : CommonRecord, c.valid = true → c.wins + c.losses + c.ties = 0 →
        commonGamesPct c = 0)
    ∧ (∀ w : ℚ, ratioOrZero w 0 = 0) := by
  refine ⟨rfl, ?_, ?_, ?_, ?_, ?_, ?_⟩
  · intro s h; simp [getWinPct, h]
  · intro s h; simp [getDivPct, h]
  · intro s h; simp [getConfPct, h]
  · intro r h; simp [getH2HPct, h]
  · intro c hv h
    have hw : c.wins = 0 := by omega
    have ht : c.ties = 0 := by omega
    simp [commonGamesPct, hv, h, hw, ht]
  · intro w; simp [ratioOrZero]

/-- Witness for C7 at concrete zero-game records. -/
theorem zero_denominator_ratios_zero_witness :
    getWinPct (some defaultStats) = 0
    ∧ getDivPct defaultStats = 0
    ∧ getConfPct defaultStats = 0
    ∧ getH2HPct { wins := 0, losses := 0, ties := 0, opponentsPlayed := [] } = 0
    ∧ commonGamesPct { wins := 0, losses := 0, ties := 0, valid := true } = 0
    ∧ ratioOrZero 5 0 = 0 :=
  ⟨zero_denominator_ratios_zero.2.1 defaultStats (by decide),
   zero_denominator_ratios_zero.2.2.1 defaultStats (by decide),
   zero_denominator_ratios_zero.2.2.2.1 defaultStats (by decide),
   zero_denominator_ratios_zero.2.2.2.2.1 _ (by decide),
   zero_denominator_ratios_zero.2.2.2.2.2.1 _ (by decide) (by decide),
   zero_denominator_ratios_zero.2.2.2.2.2.2 5⟩

-- --- C8 ---

/-- C8. `sortTeams` mutates none of its inputs: the state-threaded embedding
`sortTeamsS`, which passes the shared input collections (team list, stats
map, games list, game-results map, opponents and per-team-games maps)
through the call as explicit state, returns that state unchanged, and its
ranking agrees with the pure `sortTeams`. The source's only in-place sort
acts on the spread copy `[...teams]`, and every other input access in the
call tree is a read. -/
theorem sortTeams_frame (pick : List Team → ℕ) (type : TiebreakType)
    (s : SortInputs) :
    (sortTeamsS pick type s).2 = s
    ∧ (sortTeamsS pick type s).1 =
        sortTeams pick s.teams s.statsMap s.allGames s.gameResults type
          s.opponentsMap s.teamGamesMap :=
  ⟨rfl, rfl⟩

-- --- C1 ---

/-- C1. In `findTiebreakerWinner`, whenever the step at `stepIdx` of either
procedure's step list eliminates at least one candidate and more than one
survivor remains, the loop restarts from the first step (index 0) with the
reduced pool — not from the step after `stepIdx` — consuming one unit of the
iteration budget; when the budget is exhausted the loop stops at the random
fallback, and the loop is entered with the fixed cap `MAX_ITERATIONS = 50`. -/
theorem restart_rule_and_cap (pick : List Team → ℕ) (type : TiebreakType)
    (statsMap : TeamStatsMap) (gameResults : JMap String)
    (opponentsMap : JMap (List String)) (teamGamesMap : JMap (List Game))
    (pool surv : List Team) (stepIdx fuel : ℕ)
    (step : List Team → TiebreakerResult)
    (hstep : (buildTiebreakerSteps type statsMap gameResults opponentsMap
      teamGamesMap)[stepIdx]? = some step)
    (helim : step pool = { survivors := surv, eliminated := true })
    (hmulti : 1 < surv.length) (hpool : 2 ≤ pool.length) :
    tbLoop pick (buildTiebreakerSteps type statsMap gameResults opponentsMap
        teamGamesMap) pool stepIdx (fuel + 1)
      = tbLoop pick (buildTiebreakerSteps type statsMap gameResults opponentsMap
        teamGamesMap) surv 0 fuel
    ∧ tbLoop pick (buildTiebreakerSteps type statsMap gameResults opponentsMap
        teamGamesMap) pool stepIdx 0 = (applyCoinToss pick pool).survivors
    ∧ findTiebreakerWinner pick pool statsMap gameResults TiebreakType.division
        opponentsMap teamGamesMap
      = tbLoop pick (buildTiebreakerSteps TiebreakType.division statsMap
        gameResults opponentsMap teamGamesMap) pool 0 MAX_ITERATIONS := by
  have hlen : (surv.length == 1) = false := by
    simp only [beq_eq_false_iff_ne]; omega
  refine ⟨?_, rfl, ?_⟩
  · simp [tbLoop, hstep, helim, hlen]
  · have hne : (pool.length == 1) = false := by
      simp only [beq_eq_false_iff_ne]; omega
    simp [findTiebreakerWinner, runTiebreakSteps, hne]

-- --- Concrete fixtures shared by witnesses ---

/-- Concrete team constructor for the witnesses (zero record). -/
def mkTeam (id conf div : String) : Team :=
  { id := id, name := id, wins := 0, losses := 0, ties := 0,
    divisionWins := 0, divisionLosses := 0, divisionTies := 0,
    conferenceWins := 0, conferenceLosses := 0, conferenceTies := 0,
    conference := conf, division := div }

def tA : Team := mkTeam "A" "AFC" "North"
def tB : Team := mkTeam "B" "AFC" "North"
def tC : Team := mkTeam "C" "AFC" "North"

/-- Stats fixture: A and B with perfect division records, C swept in the
division (division record eliminates C first). -/
def c1Stats : TeamStatsMap :=
  [ ("A", { defaultStats with divWins := 2 }),
    ("B", { defaultStats with divWins := 2 }),
    ("C", { defaultStats with divLosses := 2 }) ]

unseal Rat.add Rat.mul Rat.sub Rat.inv in
/-- Witness for C1, at the 3-team scenario in which the division-record step
(index 1) eliminates C and the loop restarts from step 0 with the pool
reduced to A and B. -/
theorem restart_rule_and_cap_witness :
    (buildTiebreakerSteps TiebreakType.division c1Stats [] [] [])[1]? =
      some (fun pool => applyBestMetric pool
        (fun t => getDivPct (jgetD c1Stats t.id defaultStats)))
    ∧ (fun pool => applyBestMetric pool
        (fun t => getDivPct (jgetD c1Stats t.id defaultStats))) [tA, tB, tC]
      = { survivors := [tA, tB], eliminated := true }
    ∧ (1 : ℕ) < 2 ∧ (2 : ℕ) ≤ 3
    ∧ tbLoop (fun _ => 0) (buildTiebreakerSteps TiebreakType.division c1Stats [] [] [])
        [tA, tB, tC] 1 50
      = tbLoop (fun _ => 0) (buildTiebreakerSteps TiebreakType.division c1Stats [] [] [])
        [tA, tB] 0 49 :=
  ⟨rfl, by decide, by decide, by decide,
    (restart_rule_and_cap (fun _ => 0) TiebreakType.division c1Stats [] [] []
      [tA, tB, tC] [tA, tB] 1 49 _ rfl (by decide) (by decide) (by decide)).1⟩

-- --- C4 ---

/-- The combined-ratio formula stated by the specification: the sum over the
given opponent entries (duplicates included) of that opponent's wins plus
half its ties, divided by the sum of those opponents' games played; `0` when
the denominator is `0`. -/
def specCombinedRatio (opponents : List String) (statsMap : TeamStatsMap) : ℚ :=
  let w := (opponents.map (fun o =>
    ((jgetD statsMap o defaultStats).wins : ℚ)
      + (1/2 : ℚ) * ((jgetD statsMap o defaultStats).ties : ℚ))).sum
  let t := (opponents.map (fun o =>
    ((jgetD statsMap o defaultStats).wins : ℚ)
      + ((jgetD statsMap o defaultStats).losses : ℚ)
      + ((jgetD statsMap o defaultStats).ties : ℚ))).sum
  if t = 0 then 0 else w / t

theorem oppArrays_foldl_skip (teamIdToIdx : JMap ℕ) (numTeams i : ℕ)
    (l : List (String × SeasonStats)) :
    ∀ arrs : (ℕ → ℚ) × (ℕ → ℚ),
    (∀ e ∈ l, jget teamIdToIdx e.1 ≠ some i) →
    (l.foldl (oppArrayStep teamIdToIdx numTeams) arrs).1 i = arrs.1 i
    ∧ (l.foldl (oppArrayStep teamIdToIdx numTeams) arrs).2 i = arrs.2 i := by
  induction l with
  | nil => intro arrs _; exact ⟨rfl, rfl⟩
  | cons e rest ih =>
      intro arrs hne
      simp only [List.foldl_cons]
      have hstep : (oppArrayStep teamIdToIdx numTeams arrs e).1 i = arrs.1 i
          ∧ (oppArrayStep teamIdToIdx numTeams arrs e).2 i = arrs.2 i := by
        cases hidx : jget teamIdToIdx e.1 with
        | none => simp [oppArrayStep, hidx]
        | some j =>
            have hji : i ≠ j := by
              intro h; exact hne e (List.mem_cons_self e rest) (by rw [hidx, h])
            by_cases hj : j < numTeams
            · simp [oppArrayStep, hidx, hj, updateFn, hji]
            · simp [oppArrayStep, hidx, hj]
      have ihr := ih (oppArrayStep teamIdToIdx numTeams arrs e)
        (fun e2 he2 => hne e2 (List.mem_cons_of_mem e he2))
      exact ⟨ihr.1.trans hstep.1, ihr.2.trans hstep.2⟩

theorem oppArrays_foldl_at (teamIdToIdx : JMap ℕ) (numTeams i : ℕ)
    (opp : String) (s : SeasonStats)
    (hinj : ∀ a b ia, jget teamIdToIdx a = some ia →
      jget teamIdToIdx b = some ia → a = b)
    (hi : jget teamIdToIdx opp = some i) (hlt : i < numTeams) :
    ∀ (l : List (String × SeasonStats)) (arrs : (ℕ → ℚ) × (ℕ → ℚ)),
    (jkeys l).Nodup → jget l opp = some s →
    (l.foldl (oppArrayStep teamIdToIdx numTeams) arrs).1 i
        = (s.wins : ℚ) + (1/2 : ℚ) * (s.ties : ℚ)
    ∧ (l.foldl (oppArrayStep teamIdToIdx numTeams) arrs).2 i
        = (s.wins : ℚ) + (s.losses : ℚ) + (s.ties : ℚ) := by
  intro l
  induction l with
  | nil => intro arrs _ hs; simp [jget] at hs
  | cons e rest ih =>
      intro arrs hkeys hs
      simp only [jkeys, List.map_cons, List.nodup_cons] at hkeys
      simp only [List.foldl_cons]
      by_cases heq : e.1 = opp
      · have hse : e.2 = s := by
          have hj : jget (e :: rest) opp = some e.2 := by simp [jget, heq]
          rw [hj] at hs; exact Option.some_inj.mp hs
        have hrest : ∀ e2 ∈ rest, jget teamIdToIdx e2.1 ≠ some i := by
          intro e2 he2 hcon
          have he2o : e2.1 = opp := hinj e2.1 opp i hcon hi
          have hmem : e2.1 ∈ List.map (fun x => x.1) rest :=
            List.mem_map_of_mem (fun x => x.1) he2
          rw [he2o, ← heq] at hmem
          exact hkeys.1 hmem
        have hskip := oppArrays_foldl_skip teamIdToIdx numTeams i rest
          (oppArrayStep teamIdToIdx numTeams arrs e) hrest
        have hwrite : (oppArrayStep teamIdToIdx numTeams arrs e).1 i
              = (s.wins : ℚ) + (1/2 : ℚ) * (s.ties : ℚ)
            ∧ (oppArrayStep teamIdToIdx numTeams arrs e).2 i
              = (s.wins : ℚ) + (s.losses : ℚ) + (s.ties : ℚ) := by
          unfold oppArrayStep
          rw [heq, hi]
          simp [hlt, updateFn, hse]
        exact ⟨hskip.1.trans hwrite.1, hskip.2.trans hwrite.2⟩
      · have hs2 : jget rest opp = some s := by
          simpa [jget, heq] using hs
        exact ih (oppArrayStep teamIdToIdx numTeams arrs e) hkeys.2 hs2

theorem accumOpp_foldl_spec (statsMap : TeamStatsMap) (teamIdToIdx : JMap ℕ)
    (numTeams : ℕ)
    (hkeys : (jkeys statsMap).Nodup)
    (hinj : ∀ a b ia, jget teamIdToIdx a = some ia →
      jget teamIdToIdx b = some ia → a = b)
    (opponents : List String) :
    ∀ acc : ℚ × ℚ,
    (∀ opp ∈ opponents, ∃ i s2, jget teamIdToIdx opp = some i ∧ i < numTeams
      ∧ jget statsMap opp = some s2) →
    opponents.foldl
      (accumOppStep teamIdToIdx (buildOppArrays statsMap teamIdToIdx numTeams).1
        (buildOppArrays statsMap teamIdToIdx numTeams).2) acc
    = (acc.1 + (opponents.map (fun o =>
          ((jgetD statsMap o defaultStats).wins : ℚ)
            + (1/2 : ℚ) * ((jgetD statsMap o defaultStats).ties : ℚ))).sum,
       acc.2 + (opponents.map (fun o =>
          ((jgetD statsMap o defaultStats).wins : ℚ)
            + ((jgetD statsMap o defaultStats).losses : ℚ)
            + ((jgetD statsMap o defaultStats).ties : ℚ))).sum) := by
  induction opponents with
  | nil => intro acc _; simp
  | cons o rest ih =>
      intro acc hall
      obtain ⟨i, s2, hi, hlt, hs2⟩ := hall o (List.mem_cons_self o rest)
      have harr := oppArrays_foldl_at teamIdToIdx numTeams i o s2 hinj hi hlt
        statsMap (fun _ => 0, fun _ => 0) hkeys hs2
      simp only [List.foldl_cons]
      have hstep : accumOppStep teamIdToIdx
          (buildOppArrays statsMap teamIdToIdx numTeams).1
          (buildOppArrays statsMap teamIdToIdx numTeams).2 acc o
          = (acc.1 + ((jgetD statsMap o defaultStats).wins
              + (1/2 : ℚ) * (jgetD statsMap o defaultStats).ties),
             acc.2 + ((jgetD statsMap o defaultStats).wins
              + ((jgetD statsMap o defaultStats).losses : ℚ)
              + (jgetD statsMap o defaultStats).ties)) := by
        simp only [accumOppStep, hi]
        unfold buildOppArrays
        rw [harr.1, harr.2]
        simp [jgetD, hs2]
      rw [hstep, ih _ (fun opp hopp => hall opp (List.mem_cons_of_mem o hopp))]
      simp only [List.map_cons, List.sum_cons, Prod.mk.injEq]
      constructor <;> ring

theorem sum_opp_totals_nonneg (statsMap : TeamStatsMap) (opponents : List String) :
    0 ≤ (opponents.map (fun o =>
      ((jgetD statsMap o defaultStats).wins : ℚ)
        + ((jgetD statsMap o defaultStats).losses : ℚ)
        + ((jgetD statsMap o defaultStats).ties : ℚ))).sum := by
  apply List.sum_nonneg
  intro x hx
  obtain ⟨o, _, rfl⟩ := List.mem_map.mp hx
  positivity

theorem ratioOrZero_eq_spec (statsMap : TeamStatsMap) (opponents : List String) :
    ratioOrZero
      ((opponents.map (fun o =>
        ((jgetD statsMap o defaultStats).wins : ℚ)
          + (1/2 : ℚ) * ((jgetD statsMap o defaultStats).ties : ℚ))).sum)
      ((opponents.map (fun o =>
        ((jgetD statsMap o defaultStats).wins : ℚ)
          + ((jgetD statsMap o defaultStats).losses : ℚ)
          + ((jgetD statsMap o defaultStats).ties : ℚ))).sum)
    = specCombinedRatio opponents statsMap := by
  unfold ratioOrZero specCombinedRatio
  have h := sum_opp_totals_nonneg statsMap opponents
  by_cases hz : (opponents.map (fun o =>
      ((jgetD statsMap o defaultStats).wins : ℚ)
        + ((jgetD statsMap o defaultStats).losses : ℚ)
        + ((jgetD statsMap o defaultStats).ties : ℚ))).sum = 0
  · rw [if_pos hz, hz, if_neg (lt_irrefl (0 : ℚ))]
  · have hlt : 0 < (opponents.map (fun o =>
        ((jgetD statsMap o defaultStats).wins : ℚ)
          + ((jgetD statsMap o defaultStats).losses : ℚ)
          + ((jgetD statsMap o defaultStats).ties : ℚ))).sum :=
      lt_of_le_of_ne h (fun h2 => hz h2.symm)
    rw [if_pos hlt, if_neg hz]

/-- C4. For every team entry of the stats map, `computeScheduleStrength` sets
`sos` to the weighted combined ratio over every schedule entry (duplicates
included) — the sum of opponents' wins plus half their ties divided by the
sum of opponents' games played — and `sov` to the same ratio over the
defeated-opponents list, each exactly `0` when its denominator is `0`,
provided the stats map has unique keys, the index map is injective and every
referenced opponent is indexed (below the team count) with a stats entry. -/
theorem scheduleStrength_combined_ratio (statsMap : TeamStatsMap)
    (scheduleMap winsAgainst : JMap (List String)) (teamIdToIdx : JMap ℕ)
    (numTeams : ℕ) (tid : String) (s : SeasonStats)
    (hkeys : (jkeys statsMap).Nodup)
    (hinj : ∀ a b ia, jget teamIdToIdx a = some ia →
      jget teamIdToIdx b = some ia → a = b)
    (hs : jget statsMap tid = some s)
    (hopps : ∀ opp ∈ jgetD scheduleMap tid [] ++ jgetD winsAgainst tid [],
      ∃ i s2, jget teamIdToIdx opp = some i ∧ i < numTeams
        ∧ jget statsMap opp = some s2) :
    jget (computeScheduleStrength statsMap scheduleMap winsAgainst teamIdToIdx
      numTeams) tid
    = some { s with
        sos := specCombinedRatio (jgetD scheduleMap tid []) statsMap,
        sov := specCombinedRatio (jgetD winsAgainst tid []) statsMap } := by
  have hsched : ∀ opp ∈ jgetD scheduleMap tid [],
      ∃ i s2, jget teamIdToIdx opp = some i ∧ i < numTeams
        ∧ jget statsMap opp = some s2 :=
    fun opp h => hopps opp (List.mem_append_left _ h)
  have hwins : ∀ opp ∈ jgetD winsAgainst tid [],
      ∃ i s2, jget teamIdToIdx opp = some i ∧ i < numTeams
        ∧ jget statsMap opp = some s2 :=
    fun opp h => hopps opp (List.mem_append_right _ h)
  unfold computeScheduleStrength
  rw [jget_map_value
    (scheduleStrengthUpdate scheduleMap winsAgainst teamIdToIdx
      (buildOppArrays statsMap teamIdToIdx numTeams).1
      (buildOppArrays statsMap teamIdToIdx numTeams).2)
    statsMap tid]
  rw [hs]
  simp only [Option.map_some']
  unfold scheduleStrengthUpdate
  have hacc1 := accumOpp_foldl_spec statsMap teamIdToIdx numTeams hkeys hinj
    (jgetD scheduleMap tid []) (0, 0) hsched
  have hacc2 := accumOpp_foldl_spec statsMap teamIdToIdx numTeams hkeys hinj
    (jgetD winsAgainst tid []) (0, 0) hwins
  unfold accumOpp
  rw [hacc1, hacc2]
  simp only [zero_add]
  rw [ratioOrZero_eq_spec statsMap (jgetD scheduleMap tid []),
      ratioOrZero_eq_spec statsMap (jgetD winsAgainst tid [])]

theorem jget_mem {α : Type} (m : JMap α) (k : String) (v : α)
    (h : jget m k = some v) : (k, v) ∈ m := by
  induction m with
  | nil => simp [jget] at h
  | cons e rest ih =>
      by_cases heq : e.1 = k
      · simp only [jget, heq, if_pos] at h
        have hv : v = e.2 := (Option.some_inj.mp h).symm
        rw [hv, ← heq]
        exact List.mem_cons_self e rest
      · simp only [jget, heq, if_false] at h
        exact List.mem_cons_of_mem e (ih h)

/-- Concrete fixture for C4: one team with two opponents of records 9-1-0
(10 games) and 8-8-0 (16 games), each played once; defeated only the first. -/
def c4Stats : TeamStatsMap :=
  [ ("T", defaultStats),
    ("O1", { defaultStats with wins := 9, losses := 1 }),
    ("O2", { defaultStats with wins := 8, losses := 8 }) ]

def c4Sched : JMap (List String) := [("T", ["O1", "O2"])]

def c4Wins : JMap (List String) := [("T", ["O1"])]

def c4Idx : JMap ℕ := [("T", 0), ("O1", 1), ("O2", 2)]

unseal Rat.add Rat.mul Rat.sub Rat.inv in
/-- Witness for C4: with opponent records 9/10 and 8/16, the Strength of
Schedule is the combined ratio 17/26, not the 0.70 average of percentages,
and the Strength of Victory is 9/10. -/
theorem scheduleStrength_combined_ratio_witness :
    jget (computeScheduleStrength c4Stats c4Sched c4Wins c4Idx 3) "T"
      = some { defaultStats with sos := 17/26, sov := 9/10 }
    ∧ specCombinedRatio ["O1", "O2"] c4Stats = 17/26
    ∧ (17 : ℚ)/26 ≠ 7/10 := by
  have hinj : ∀ a b ia, jget c4Idx a = some ia → jget c4Idx b = some ia → a = b := by
    intro a b ia h1 h2
    have m1 := jget_mem c4Idx a ia h1
    have m2 := jget_mem c4Idx b ia h2
    simp only [c4Idx, List.mem_cons, List.not_mem_nil, or_false,
      Prod.mk.injEq] at m1 m2
    rcases m1 with ⟨ha, hia⟩ | ⟨ha, hia⟩ | ⟨ha, hia⟩ <;>
      rcases m2 with ⟨hb, hib⟩ | ⟨hb, hib⟩ | ⟨hb, hib⟩ <;>
      subst ha <;> subst hb <;> first | rfl | omega
  have hopps : ∀ opp ∈ jgetD c4Sched "T" [] ++ jgetD c4Wins "T" [],
      ∃ i s2, jget c4Idx opp = some i ∧ i < 3 ∧ jget c4Stats opp = some s2 := by
    intro opp hopp
    have : opp = "O1" ∨ opp = "O2" ∨ opp = "O1" := by
      simpa [c4Sched, c4Wins, jgetD, jget] using hopp
    rcases this with rfl | rfl | rfl
    · exact ⟨1, { defaultStats with wins := 9, losses := 1 }, by decide, by decide, by decide⟩
    · exact ⟨2, { defaultStats with wins := 8, losses := 8 }, by decide, by decide, by decide⟩
    · exact ⟨1, { defaultStats with wins := 9, losses := 1 }, by decide, by decide, by decide⟩
  have h := scheduleStrength_combined_ratio c4Stats c4Sched c4Wins c4Idx 3 "T"
    defaultStats (by decide) hinj (by decide) hopps
  refine ⟨?_, by decide, by decide⟩
  rw [h]
  decide

-- --- C3 ---

/-- The common-games percentage of one candidate of the pool (the value the
common-games step compares). -/
def commonPctOf (pool : List Team) (gameResults : JMap String)
    (opponentsMap : JMap (List String)) (teamGamesMap : JMap (List Game))
    (t : Team) : ℚ :=
  commonGamesPct (getCommonGamesRecord t.id (pool.map (·.id))
    (jgetD teamGamesMap t.id []) gameResults opponentsMap)

theorem commonOpponentsOf_foldl_isSome (opponentsMap : JMap (List String))
    (groupIds : List String) :
    ∀ (l : List String) (y : List String),
    ∃ z, l.foldl
      (fun acc tid =>
        let opps := jsSetOf ((jgetD opponentsMap tid []).filter
          (fun o => decide (¬ o ∈ groupIds)))
        match acc with
        | none => some opps
        | some cur => some (cur.filter (fun o => decide (o ∈ opps))))
      (some y) = some z := by
  intro l
  induction l with
  | nil => intro y; exact ⟨y, rfl⟩
  | cons tid rest ih =>
      intro y
      simp only [List.foldl_cons]
      exact ih _

theorem commonOpponentsOf_isSome (groupIds : List String)
    (opponentsMap : JMap (List String)) (h : groupIds ≠ []) :
    ∃ common, commonOpponentsOf groupIds opponentsMap = some common := by
  match groupIds, h with
  | g :: rest, _ =>
      unfold commonOpponentsOf
      simp only [List.foldl_cons]
      exact commonOpponentsOf_foldl_isSome opponentsMap (g :: rest) rest _

theorem getCommonGamesRecord_invalid (tid : String) (groupIds : List String)
    (teamGames : List Game) (gameResults : JMap String)
    (opponentsMap : JMap (List String)) (common : List String)
    (hc : commonOpponentsOf groupIds opponentsMap = some common)
    (h : common = [] ∨ commonGamesPlayed tid common teamGames gameResults < 4) :
    getCommonGamesRecord tid groupIds teamGames gameResults opponentsMap
      = { wins := 0, losses := 0, ties := 0, valid := false } := by
  unfold getCommonGamesRecord
  rw [hc]
  dsimp only
  rcases h with h | h
  · rw [if_pos h]
  · by_cases he : common = []
    · rw [if_pos he]
    · rw [if_neg he, if_pos h]

theorem getCommonGamesRecord_valid (tid : String) (groupIds : List String)
    (teamGames : List Game) (gameResults : JMap String)
    (opponentsMap : JMap (List String)) (common : List String)
    (hc : commonOpponentsOf groupIds opponentsMap = some common)
    (hne : common ≠ [])
    (hcount : 4 ≤ commonGamesPlayed tid common teamGames gameResults) :
    getCommonGamesRecord tid groupIds teamGames gameResults opponentsMap
      = { wins := (commonTally tid common teamGames gameResults).1,
          losses := (commonTally tid common teamGames gameResults).2.1,
          ties := (commonTally tid common teamGames gameResults).2.2,
          valid := true } := by
  unfold getCommonGamesRecord
  rw [hc]
  dsimp only
  rw [if_neg hne, if_neg (by omega)]

/-- C3. The common-games step first computes the opponents common to all
candidates (candidates excluded); if that set is empty or some candidate has
fewer than 4 decided games — games, not distinct opponents — against it, the
step eliminates nobody; otherwise it retains exactly the candidates whose
common-games win percentage is within `EPSILON` of the maximum. -/
theorem commonGames_min_four_games (pool : List Team)
    (gameResults : JMap String) (opponentsMap : JMap (List String))
    (teamGamesMap : JMap (List Game)) (common : List String)
    (h2 : 2 ≤ pool.length)
    (hc : commonOpponentsOf (pool.map (·.id)) opponentsMap = some common) :
    ((common = [] ∨ ∃ t ∈ pool, commonGamesPlayed t.id common
        (jgetD teamGamesMap t.id []) gameResults < 4) →
      applyCommonGames pool gameResults opponentsMap teamGamesMap
        = { survivors := pool, eliminated := false })
    ∧ ((common ≠ [] ∧ ∀ t ∈ pool, 4 ≤ commonGamesPlayed t.id common
        (jgetD teamGamesMap t.id []) gameResults) →
      applyCommonGames pool gameResults opponentsMap teamGamesMap
        = { survivors := pool.filter (fun t =>
              decide (qabs (commonPctOf pool gameResults opponentsMap teamGamesMap t
                - jsMaxQ (pool.map (commonPctOf pool gameResults opponentsMap
                    teamGamesMap))) < EPSILON)),
            eliminated := decide ((pool.filter (fun t =>
              decide (qabs (commonPctOf pool gameResults opponentsMap teamGamesMap t
                - jsMaxQ (pool.map (commonPctOf pool gameResults opponentsMap
                    teamGamesMap))) < EPSILON))).length < pool.length) }) := by
  have hnotle : ¬ pool.length ≤ 1 := by omega
  constructor
  · intro hinvalid
    unfold applyCommonGames
    rw [if_neg hnotle]
    have hany : (pool.map (fun t =>
        (t, commonGamesPct (getCommonGamesRecord t.id (pool.map (·.id))
          (jgetD teamGamesMap t.id []) gameResults opponentsMap),
          (getCommonGamesRecord t.id (pool.map (·.id))
            (jgetD teamGamesMap t.id []) gameResults opponentsMap).valid))).any
        (fun r => !r.2.2) = true := by
      rcases hinvalid with hemp | ⟨t, ht, hlt⟩
      · match pool, h2 with
        | t :: rest, _ =>
            apply List.any_eq_true.mpr
            refine ⟨_, List.mem_map_of_mem _ (List.mem_cons_self t rest), ?_⟩
            rw [getCommonGamesRecord_invalid t.id ((t :: rest).map (·.id))
              (jgetD teamGamesMap t.id []) gameResults opponentsMap common hc
              (Or.inl hemp)]
            rfl
      · apply List.any_eq_true.mpr
        refine ⟨_, List.mem_map_of_mem _ ht, ?_⟩
        rw [getCommonGamesRecord_invalid t.id (pool.map (·.id))
          (jgetD teamGamesMap t.id []) gameResults opponentsMap common hc
          (Or.inr hlt)]
        rfl
    rw [if_pos hany]
  · intro hvalid
    unfold applyCommonGames
    rw [if_neg hnotle]
    have hall : ∀ t ∈ pool, (getCommonGamesRecord t.id (pool.map (·.id))
        (jgetD teamGamesMap t.id []) gameResults opponentsMap).valid = true := by
      intro t ht
      rw [getCommonGamesRecord_valid t.id (pool.map (·.id))
        (jgetD teamGamesMap t.id []) gameResults opponentsMap common hc
        hvalid.1 (hvalid.2 t ht)]
    have hany : (pool.map (fun t =>
        (t, commonGamesPct (getCommonGamesRecord t.id (pool.map (·.id))
          (jgetD teamGamesMap t.id []) gameResults opponentsMap),
          (getCommonGamesRecord t.id (pool.map (·.id))
            (jgetD teamGamesMap t.id []) gameResults opponentsMap).valid))).any
        (fun r => !r.2.2) = false := by
      apply List.any_eq_false.mpr
      intro r hr
      obtain ⟨t, ht, rfl⟩ := List.mem_map.mp hr
      simp [hall t ht]
    rw [if_neg (by simp [hany])]
    dsimp only
    have hmap2 : (pool.map (fun t =>
        (t, commonGamesPct (getCommonGamesRecord t.id (pool.map (·.id))
          (jgetD teamGamesMap t.id []) gameResults opponentsMap),
          (getCommonGamesRecord t.id (pool.map (·.id))
            (jgetD teamGamesMap t.id []) gameResults opponentsMap).valid))).map
        (fun r => r.2.1)
        = pool.map (commonPctOf pool gameResults opponentsMap teamGamesMap) := by
      rw [List.map_map]; rfl
    rw [hmap2]
    rw [filter_of_map pool
      (fun t =>
        (t, commonGamesPct (getCommonGamesRecord t.id (pool.map (·.id))
          (jgetD teamGamesMap t.id []) gameResults opponentsMap),
          (getCommonGamesRecord t.id (pool.map (·.id))
            (jgetD teamGamesMap t.id []) gameResults opponentsMap).valid))
      (fun s => decide (qabs (s.2.1 - jsMaxQ (pool.map (commonPctOf pool
        gameResults opponentsMap teamGamesMap))) < EPSILON))]
    rw [map_fst_pair]
    rfl

/-- Finished-game constructor for the witnesses. -/
def mkFinGame (id home away winner : String) : Game :=
  { id := id, week := 1, homeTeamId := home, awayTeamId := away,
    isFinished := true, winnerId := some winner }

/-- Fixture for C3: A and B share common opponents X and Y; A beat each of
them twice (4-0), B lost to each twice (0-4). -/
def c3Results : JMap String :=
  [ ("aX1", "A"), ("aX2", "A"), ("aY1", "A"), ("aY2", "A"),
    ("bX1", "X"), ("bX2", "X"), ("bY1", "Y"), ("bY2", "Y") ]

def c3GamesA : List Game :=
  [ mkFinGame "aX1" "A" "X" "A", mkFinGame "aX2" "A" "X" "A",
    mkFinGame "aY1" "A" "Y" "A", mkFinGame "aY2" "A" "Y" "A" ]

def c3GamesB : List Game :=
  [ mkFinGame "bX1" "B" "X" "X", mkFinGame "bX2" "B" "X" "X",
    mkFinGame "bY1" "B" "Y" "Y", mkFinGame "bY2" "B" "Y" "Y" ]

/-- Four games against two common opponents (two games each). -/
def c3TeamGames : JMap (List Game) := [("A", c3GamesA), ("B", c3GamesB)]

def c3Opps : JMap (List String) :=
  [("A", ["X", "Y", "X", "Y"]), ("B", ["X", "Y", "X", "Y"])]

/-- The same two common opponents played only once each (two games). -/
def c3TeamGames2 : JMap (List Game) :=
  [("A", [mkFinGame "aX1" "A" "X" "A", mkFinGame "aY1" "A" "Y" "A"]),
   ("B", [mkFinGame "bX1" "B" "X" "X", mkFinGame "bY1" "B" "Y" "Y"])]

def c3Opps2 : JMap (List String) := [("A", ["X", "Y"]), ("B", ["X", "Y"])]

unseal Rat.add Rat.mul Rat.sub Rat.inv in
/-- Witness for C3: with two common opponents played twice each (4 games) the
step applies and the 4-0 team alone survives; with the same two common
opponents played once each (2 games) the step eliminates nobody. -/
theorem commonGames_min_four_games_witness :
    commonOpponentsOf ([tA, tB].map (·.id)) c3Opps = some ["X", "Y"]
    ∧ (∀ t ∈ [tA, tB], 4 ≤ commonGamesPlayed t.id ["X", "Y"]
        (jgetD c3TeamGames t.id []) c3Results)
    ∧ applyCommonGames [tA, tB] c3Results c3Opps c3TeamGames
        = { survivors := [tA], eliminated := true }
    ∧ commonGamesPlayed "A" ["X", "Y"] (jgetD c3TeamGames2 "A" []) c3Results = 2
    ∧ applyCommonGames [tA, tB] c3Results c3Opps2 c3TeamGames2
        = { survivors := [tA, tB], eliminated := false } := by
  have h1 := (commonGames_min_four_games [tA, tB] c3Results c3Opps c3TeamGames
    ["X", "Y"] (by decide) (by decide)).2
  have h2 := (commonGames_min_four_games [tA, tB] c3Results c3Opps2 c3TeamGames2
    ["X", "Y"] (by decide) (by decide)).1
  refine ⟨by decide, by decide, ?_, by decide, ?_⟩
  · rw [h1 (by decide)]
    decide
  · exact h2 (Or.inr ⟨tA, by decide, by decide⟩)

-- --- C2: sweep-only head-to-head for pools of three or more ---

/-- Componentwise comparison of the win/loss/tie counters of two records. -/
def recLe (r1 r2 : H2HRecord) : Prop :=
  r1.wins ≤ r2.wins ∧ r1.losses ≤ r2.losses ∧ r1.ties ≤ r2.ties

theorem recLe_refl (r : H2HRecord) : recLe r r :=
  ⟨le_refl _, le_refl _, le_refl _⟩

theorem h2hStep_of_mem (tid : String) (T : List String) (gr : JMap String)
    (acc : H2HRecord) (g : Game) (hT : h2hOpp tid g ∈ T) :
    h2hStep tid T gr acc g =
      match jget gr g.id with
      | none => acc
      | some winnerId =>
          if winnerId = "TIE" then
            { acc with opponentsPlayed := jsAdd acc.opponentsPlayed (h2hOpp tid g),
                       ties := acc.ties + 1 }
          else if winnerId = tid then
            { acc with opponentsPlayed := jsAdd acc.opponentsPlayed (h2hOpp tid g),
                       wins := acc.wins + 1 }
          else
            { acc with opponentsPlayed := jsAdd acc.opponentsPlayed (h2hOpp tid g),
                       losses := acc.losses + 1 } := by
  unfold h2hStep
  rw [if_pos hT]

theorem h2hStep_of_not_mem (tid : String) (T : List String) (gr : JMap String)
    (acc : H2HRecord) (g : Game) (hT : ¬ h2hOpp tid g ∈ T) :
    h2hStep tid T gr acc g = acc := by
  unfold h2hStep
  rw [if_neg hT]

theorem h2hStep_incr (tid : String) (T : List String) (gr : JMap String)
    (acc : H2HRecord) (g : Game) : recLe acc (h2hStep tid T gr acc g) := by
  by_cases hT : h2hOpp tid g ∈ T
  · rw [h2hStep_of_mem tid T gr acc g hT]
    cases hres : jget gr g.id with
    | none => exact recLe_refl acc
    | some w =>
        dsimp only
        by_cases hTIE : w = "TIE"
        · rw [if_pos hTIE]; exact ⟨le_refl _, le_refl _, Nat.le_succ _⟩
        · rw [if_neg hTIE]
          by_cases hw : w = tid
          · rw [if_pos hw]; exact ⟨Nat.le_succ _, le_refl _, le_refl _⟩
          · rw [if_neg hw]; exact ⟨le_refl _, Nat.le_succ _, le_refl _⟩
  · rw [h2hStep_of_not_mem tid T gr acc g hT]
    exact recLe_refl acc

theorem h2hStep_mono (tid : String) (S T : List String) (gr : JMap String)
    (hsub : ∀ x ∈ S, x ∈ T) (acc1 acc2 : H2HRecord) (g : Game)
    (h : recLe acc1 acc2) :
    recLe (h2hStep tid S gr acc1 g) (h2hStep tid T gr acc2 g) := by
  by_cases hS : h2hOpp tid g ∈ S
  · have hT : h2hOpp tid g ∈ T := hsub _ hS
    rw [h2hStep_of_mem tid S gr acc1 g hS, h2hStep_of_mem tid T gr acc2 g hT]
    cases hres : jget gr g.id with
    | none => exact h
    | some w =>
        dsimp only
        by_cases hTIE : w = "TIE"
        · rw [if_pos hTIE, if_pos hTIE]
          exact ⟨h.1, h.2.1, Nat.add_le_add_right h.2.2 1⟩
        · rw [if_neg hTIE, if_neg hTIE]
          by_cases hw : w = tid
          · rw [if_pos hw, if_pos hw]
            exact ⟨Nat.add_le_add_right h.1 1, h.2.1, h.2.2⟩
          · rw [if_neg hw, if_neg hw]
            exact ⟨h.1, Nat.add_le_add_right h.2.1 1, h.2.2⟩
  · rw [h2hStep_of_not_mem tid S gr acc1 g hS]
    have hstep := h2hStep_incr tid T gr acc2 g
    exact ⟨le_trans h.1 hstep.1, le_trans h.2.1 hstep.2.1,
      le_trans h.2.2 hstep.2.2⟩

theorem h2hFold_mono (tid : String) (S T : List String) (gr : JMap String)
    (hsub : ∀ x ∈ S, x ∈ T) (games : List Game) :
    ∀ acc1 acc2 : H2HRecord, recLe acc1 acc2 →
    recLe (games.foldl (h2hStep tid S gr) acc1)
      (games.foldl (h2hStep tid T gr) acc2) := by
  induction games with
  | nil => intro acc1 acc2 h; exact h
  | cons g rest ih =>
      intro acc1 acc2 h
      simp only [List.foldl_cons]
      exact ih _ _ (h2hStep_mono tid S T gr hsub acc1 acc2 g h)

theorem getH2HRecord_mono (tid : String) (S T : List String) (gr : JMap String)
    (games : List Game) (hsub : ∀ x ∈ S, x ∈ T) :
    recLe (getH2HRecord tid S games gr) (getH2HRecord tid T games gr) :=
  h2hFold_mono tid S T gr hsub games _ _ (recLe_refl _)


theorem jsAdd_mem_of_ne {α : Type} [DecidableEq α] (s : List α) (x b : α)
    (h : b ∈ jsAdd s x) (hne : b ≠ x) : b ∈ s := by
  unfold jsAdd at h
  by_cases hx : x ∈ s
  · rwa [if_pos hx] at h
  · rw [if_neg hx] at h
    rcases List.mem_append.mp h with h | h
    · exact h
    · exact absurd (List.mem_singleton.mp h) hne

theorem jsAdd_nodup {α : Type} [DecidableEq α] (s : List α) (x : α)
    (h : s.Nodup) : (jsAdd s x).Nodup := by
  unfold jsAdd
  by_cases hx : x ∈ s
  · rw [if_pos hx]; exact h
  · rw [if_neg hx]
    simpa [List.nodup_append] using ⟨h, hx⟩

theorem jsAdd_subset {α : Type} [DecidableEq α] (s : List α) (x : α)
    (T : List α) (hs : ∀ y ∈ s, y ∈ T) (hx : x ∈ T) :
    ∀ y ∈ jsAdd s x, y ∈ T := by
  intro y hy
  unfold jsAdd at hy
  by_cases hmem : x ∈ s
  · rw [if_pos hmem] at hy; exact hs y hy
  · rw [if_neg hmem] at hy
    rcases List.mem_append.mp hy with hy | hy
    · exact hs y hy
    · rw [List.mem_singleton.mp hy]; exact hx

theorem h2hStep_played (tid : String) (T : List String) (gr : JMap String)
    (acc : H2HRecord) (g : Game) :
    (h2hStep tid T gr acc g).opponentsPlayed = acc.opponentsPlayed
    ∨ (h2hStep tid T gr acc g).opponentsPlayed
        = jsAdd acc.opponentsPlayed (h2hOpp tid g) ∧ h2hOpp tid g ∈ T := by
  by_cases hT : h2hOpp tid g ∈ T
  · rw [h2hStep_of_mem tid T gr acc g hT]
    cases hres : jget gr g.id with
    | none => left; rfl
    | some w =>
        dsimp only
        by_cases hTIE : w = "TIE"
        · rw [if_pos hTIE]; right; exact ⟨rfl, hT⟩
        · rw [if_neg hTIE]
          by_cases hw : w = tid
          · rw [if_pos hw]; right; exact ⟨rfl, hT⟩
          · rw [if_neg hw]; right; exact ⟨rfl, hT⟩
  · rw [h2hStep_of_not_mem tid T gr acc g hT]
    left; rfl

theorem h2hFold_played_total (tid b : String) (T : List String)
    (gr : JMap String) (games : List Game) :
    ∀ acc1 acc2 : H2HRecord,
    (b ∈ acc1.opponentsPlayed → 0 < acc2.wins + acc2.losses + acc2.ties) →
    (b ∈ (games.foldl (h2hStep tid T gr) acc1).opponentsPlayed →
      0 < (games.foldl (h2hStep tid [b] gr) acc2).wins
        + (games.foldl (h2hStep tid [b] gr) acc2).losses
        + (games.foldl (h2hStep tid [b] gr) acc2).ties) := by
  induction games with
  | nil => intro acc1 acc2 h; exact h
  | cons g rest ih =>
      intro acc1 acc2 h
      simp only [List.foldl_cons]
      apply ih
      intro hmem
      by_cases hob : h2hOpp tid g = b
      · cases hres : jget gr g.id with
        | none =>
            have e2 : h2hStep tid [b] gr acc2 g = acc2 := by
              rw [h2hStep_of_mem tid [b] gr acc2 g (by simp [hob]), hres]
            have e1 : h2hStep tid T gr acc1 g = acc1 := by
              by_cases hT : h2hOpp tid g ∈ T
              · rw [h2hStep_of_mem tid T gr acc1 g hT, hres]
              · exact h2hStep_of_not_mem tid T gr acc1 g hT
            rw [e2]
            rw [e1] at hmem
            exact h hmem
        | some w =>
            rw [h2hStep_of_mem tid [b] gr acc2 g (by simp [hob]), hres]
            dsimp only
            by_cases hTIE : w = "TIE"
            · rw [if_pos hTIE]
              show 0 < acc2.wins + acc2.losses + (acc2.ties + 1)
              omega
            · rw [if_neg hTIE]
              by_cases hw : w = tid
              · rw [if_pos hw]
                show 0 < (acc2.wins + 1) + acc2.losses + acc2.ties
                omega
              · rw [if_neg hw]
                show 0 < acc2.wins + (acc2.losses + 1) + acc2.ties
                omega
      · have e2 : h2hStep tid [b] gr acc2 g = acc2 :=
          h2hStep_of_not_mem tid [b] gr acc2 g (by simp [hob])
        rw [e2]
        apply h
        rcases h2hStep_played tid T gr acc1 g with hpl | hpl
        · rwa [hpl] at hmem
        · rw [hpl.1] at hmem
          exact jsAdd_mem_of_ne _ _ _ hmem (fun hbx => hob hbx.symm)

theorem getH2HRecord_played_total (tid b : String) (T : List String)
    (gr : JMap String) (games : List Game)
    (hmem : b ∈ (getH2HRecord tid T games gr).opponentsPlayed) :
    0 < (getH2HRecord tid [b] games gr).wins
      + (getH2HRecord tid [b] games gr).losses
      + (getH2HRecord tid [b] games gr).ties :=
  h2hFold_played_total tid b T gr games _ _ (by intro h; simp at h) hmem

theorem h2hFold_played_wf (tid : String) (T : List String) (gr : JMap String)
    (games : List Game) :
    ∀ acc : H2HRecord,
    acc.opponentsPlayed.Nodup → (∀ y ∈ acc.opponentsPlayed, y ∈ T) →
    (games.foldl (h2hStep tid T gr) acc).opponentsPlayed.Nodup
    ∧ ∀ y ∈ (games.foldl (h2hStep tid T gr) acc).opponentsPlayed, y ∈ T := by
  induction games with
  | nil => intro acc h1 h2; exact ⟨h1, h2⟩
  | cons g rest ih =>
      intro acc h1 h2
      simp only [List.foldl_cons]
      rcases h2hStep_played tid T gr acc g with hpl | hpl
      · exact ih _ (hpl ▸ h1) (hpl ▸ h2)
      · exact ih _ (hpl.1 ▸ jsAdd_nodup _ _ h1)
          (hpl.1 ▸ jsAdd_subset _ _ T h2 hpl.2)

theorem getH2HRecord_played_wf (tid : String) (T : List String)
    (gr : JMap String) (games : List Game) :
    (getH2HRecord tid T games gr).opponentsPlayed.Nodup
    ∧ ∀ y ∈ (getH2HRecord tid T games gr).opponentsPlayed, y ∈ T :=
  h2hFold_played_wf tid T gr games _ List.nodup_nil (by intro y h; simp at h)


/-- The head-to-head record of a pool member against the whole pool. -/
def poolRec (pool : List Team) (gameResults : JMap String)
    (teamGamesMap : JMap (List Game)) (t : Team) : H2HRecord :=
  getH2HRecord t.id (pool.map (·.id)) (jgetD teamGamesMap t.id []) gameResults

/-- The head-to-head record of `a` against `b` alone. -/
def pairRec (gameResults : JMap String) (teamGamesMap : JMap (List Game))
    (a b : Team) : H2HRecord :=
  getH2HRecord a.id [b.id] (jgetD teamGamesMap a.id []) gameResults

/-- The sweep predicate actually filtered on by `applyMultiTeamSweepH2H`. -/
def sweeperPred (pool : List Team) (gameResults : JMap String)
    (teamGamesMap : JMap (List Game)) (t : Team) : Bool :=
  isSweeperRec pool.length (poolRec pool gameResults teamGamesMap t)

/-- The swept predicate actually filtered on by `applyMultiTeamSweepH2H`. -/
def sweptPred (pool : List Team) (gameResults : JMap String)
    (teamGamesMap : JMap (List Game)) (t : Team) : Bool :=
  isSweptRec pool.length (poolRec pool gameResults teamGamesMap t)

/-- Well-formedness of the head-to-head data over a pool: pairwise games are
recorded consistently for both sides (a win of `a` over `b` appears as a loss
of `b` to `a`), and no team has a recorded game against itself. This holds by
construction whenever both teams' game lists come from one shared game list
with one result per game, as in every caller. -/
def h2hConsistent (pool : List Team) (gameResults : JMap String)
    (teamGamesMap : JMap (List Game)) : Prop :=
  (∀ a ∈ pool, ∀ b ∈ pool, a.id ≠ b.id →
      (0 < (pairRec gameResults teamGamesMap a b).wins ↔
        0 < (pairRec gameResults teamGamesMap b a).losses))
  ∧ ∀ a ∈ pool, (pairRec gameResults teamGamesMap a a).wins
      + (pairRec gameResults teamGamesMap a a).losses
      + (pairRec gameResults teamGamesMap a a).ties = 0

theorem id_inj (pool : List Team) (hnodup : (pool.map (·.id)).Nodup)
    (a b : Team) (ha : a ∈ pool) (hb : b ∈ pool) (h : a.id = b.id) : a = b :=
  List.inj_on_of_nodup_map hnodup ha hb h

/-- If a pool member has played all other `pool.length - 1` candidates, every
other candidate has a decided pair game against it. -/
theorem pair_total_pos_of_played_all (pool : List Team)
    (gameResults : JMap String) (teamGamesMap : JMap (List Game))
    (hnodup : (pool.map (·.id)).Nodup)
    (hself : ∀ a ∈ pool, (pairRec gameResults teamGamesMap a a).wins
      + (pairRec gameResults teamGamesMap a a).losses
      + (pairRec gameResults teamGamesMap a a).ties = 0)
    (a : Team) (ha : a ∈ pool)
    (hlen : (poolRec pool gameResults teamGamesMap a).opponentsPlayed.length
      = pool.length - 1)
    (b : Team) (hb : b ∈ pool) (hne : b.id ≠ a.id) :
    0 < (pairRec gameResults teamGamesMap a b).wins
      + (pairRec gameResults teamGamesMap a b).losses
      + (pairRec gameResults teamGamesMap a b).ties := by
  unfold poolRec at hlen
  unfold pairRec
  have hwf := getH2HRecord_played_wf a.id (pool.map (·.id))
    gameResults (jgetD teamGamesMap a.id [])
  have hids_nodup : (pool.map (·.id)).Nodup := hnodup
  have haid : a.id ∈ pool.map (·.id) := List.mem_map_of_mem (·.id) ha
  have hbid : b.id ∈ pool.map (·.id) := List.mem_map_of_mem (·.id) hb
  have hself_not : a.id ∉ (getH2HRecord a.id (pool.map (·.id))
      (jgetD teamGamesMap a.id []) gameResults).opponentsPlayed := by
    intro hmem
    have := getH2HRecord_played_total a.id a.id (pool.map (·.id)) gameResults
      (jgetD teamGamesMap a.id []) hmem
    have hz := hself a ha
    unfold pairRec at hz
    omega
  have hsub : (getH2HRecord a.id (pool.map (·.id))
      (jgetD teamGamesMap a.id []) gameResults).opponentsPlayed
      ⊆ (pool.map (·.id)).erase a.id := by
    intro y hy
    have hyid : y ∈ pool.map (·.id) := hwf.2 y hy
    have hyne : y ≠ a.id := by
      intro h; rw [h] at hy; exact hself_not hy
    exact (hids_nodup.mem_erase_iff).mpr ⟨hyne, hyid⟩
  have hlen_erase : ((pool.map (·.id)).erase a.id).length = pool.length - 1 := by
    rw [List.length_erase_of_mem haid, List.length_map]
  have hsubperm := List.subperm_of_subset hwf.1 hsub
  obtain ⟨w, hperm, hsublist⟩ := hsubperm
  have hweq : w = (pool.map (·.id)).erase a.id := by
    apply hsublist.eq_of_length
    rw [hperm.length_eq, hlen, hlen_erase]
  have hbmem : b.id ∈ (getH2HRecord a.id (pool.map (·.id))
      (jgetD teamGamesMap a.id []) gameResults).opponentsPlayed := by
    have hbe : b.id ∈ (pool.map (·.id)).erase a.id :=
      (hids_nodup.mem_erase_iff).mpr ⟨hne, hbid⟩
    rw [← hweq] at hbe
    exact hperm.mem_iff.mp hbe
  exact getH2HRecord_played_total a.id b.id (pool.map (·.id)) gameResults
    (jgetD teamGamesMap a.id []) hbmem

/-- A clean sweeper has a strict pairwise win over every other candidate. -/
theorem sweeper_pair_wins (pool : List Team) (gameResults : JMap String)
    (teamGamesMap : JMap (List Game))
    (hnodup : (pool.map (·.id)).Nodup)
    (hself : ∀ a ∈ pool, (pairRec gameResults teamGamesMap a a).wins
      + (pairRec gameResults teamGamesMap a a).losses
      + (pairRec gameResults teamGamesMap a a).ties = 0)
    (a : Team) (ha : a ∈ pool)
    (hsw : sweeperPred pool gameResults teamGamesMap a = true)
    (b : Team) (hb : b ∈ pool) (hne : b.id ≠ a.id) :
    0 < (pairRec gameResults teamGamesMap a b).wins := by
  simp only [sweeperPred, isSweeperRec, Bool.and_eq_true, beq_iff_eq,
    bne_iff_ne, ne_eq, decide_eq_true_eq] at hsw
  have htot := pair_total_pos_of_played_all pool gameResults teamGamesMap
    hnodup hself a ha hsw.1.1.1 b hb hne
  have hmono := getH2HRecord_mono a.id [b.id] (pool.map (·.id)) gameResults
    (jgetD teamGamesMap a.id []) (by
      intro x hx
      rw [List.mem_singleton.mp hx]
      exact List.mem_map_of_mem (·.id) hb)
  have hl : (pairRec gameResults teamGamesMap a b).losses = 0 := by
    have := hmono.2.1
    unfold pairRec poolRec at *
    omega
  have ht : (pairRec gameResults teamGamesMap a b).ties = 0 := by
    have := hmono.2.2
    unfold pairRec poolRec at *
    omega
  omega

/-- A cleanly swept candidate has a strict pairwise loss to every other
candidate. -/
theorem swept_pair_losses (pool : List Team) (gameResults : JMap String)
    (teamGamesMap : JMap (List Game))
    (hnodup : (pool.map (·.id)).Nodup)
    (hself : ∀ a ∈ pool, (pairRec gameResults teamGamesMap a a).wins
      + (pairRec gameResults teamGamesMap a a).losses
      + (pairRec gameResults teamGamesMap a a).ties = 0)
    (a : Team) (ha : a ∈ pool)
    (hsw : sweptPred pool gameResults teamGamesMap a = true)
    (b : Team) (hb : b ∈ pool) (hne : b.id ≠ a.id) :
    0 < (pairRec gameResults teamGamesMap a b).losses := by
  simp only [sweptPred, isSweptRec, Bool.and_eq_true, beq_iff_eq,
    bne_iff_ne, ne_eq, decide_eq_true_eq] at hsw
  have htot := pair_total_pos_of_played_all pool gameResults teamGamesMap
    hnodup hself a ha hsw.1.1.1 b hb hne
  have hmono := getH2HRecord_mono a.id [b.id] (pool.map (·.id)) gameResults
    (jgetD teamGamesMap a.id []) (by
      intro x hx
      rw [List.mem_singleton.mp hx]
      exact List.mem_map_of_mem (·.id) hb)
  have hw : (pairRec gameResults teamGamesMap a b).wins = 0 := by
    have := hmono.1
    unfold pairRec poolRec at *
    omega
  have ht : (pairRec gameResults teamGamesMap a b).ties = 0 := by
    have := hmono.2.2
    unfold pairRec poolRec at *
    omega
  omega

/-- Under consistent head-to-head data, two distinct candidates cannot both
be clean sweepers. -/
theorem sweeper_unique (pool : List Team) (gameResults : JMap String)
    (teamGamesMap : JMap (List Game))
    (hnodup : (pool.map (·.id)).Nodup)
    (hwf : h2hConsistent pool gameResults teamGamesMap)
    (a : Team) (ha : a ∈ pool) (hsa : sweeperPred pool gameResults teamGamesMap a = true)
    (b : Team) (hb : b ∈ pool) (hsb : sweeperPred pool gameResults teamGamesMap b = true) :
    a.id = b.id := by
  by_contra hne
  have hwins := sweeper_pair_wins pool gameResults teamGamesMap hnodup hwf.2
    a ha hsa b hb (fun h => hne h.symm)
  have hlosses := (hwf.1 a ha b hb hne).mp hwins
  simp only [sweeperPred, isSweeperRec, Bool.and_eq_true, beq_iff_eq,
    bne_iff_ne, ne_eq, decide_eq_true_eq] at hsb
  have hmono := getH2HRecord_mono b.id [a.id] (pool.map (·.id)) gameResults
    (jgetD teamGamesMap b.id []) (by
      intro x hx
      rw [List.mem_singleton.mp hx]
      exact List.mem_map_of_mem (·.id) ha)
  have := hmono.2.1
  unfold pairRec poolRec at *
  omega

/-- Under consistent head-to-head data, two distinct candidates cannot both
be cleanly swept. -/
theorem swept_unique (pool : List Team) (gameResults : JMap String)
    (teamGamesMap : JMap (List Game))
    (hnodup : (pool.map (·.id)).Nodup)
    (hwf : h2hConsistent pool gameResults teamGamesMap)
    (a : Team) (ha : a ∈ pool) (hsa : sweptPred pool gameResults teamGamesMap a = true)
    (b : Team) (hb : b ∈ pool) (hsb : sweptPred pool gameResults teamGamesMap b = true) :
    a.id = b.id := by
  by_contra hne
  have hlosses := swept_pair_losses pool gameResults teamGamesMap hnodup hwf.2
    a ha hsa b hb (fun h => hne h.symm)
  have hwins := (hwf.1 b hb a ha (fun h => hne h.symm)).mpr hlosses
  simp only [sweptPred, isSweptRec, Bool.and_eq_true, beq_iff_eq,
    bne_iff_ne, ne_eq, decide_eq_true_eq] at hsb
  have hmono := getH2HRecord_mono b.id [a.id] (pool.map (·.id)) gameResults
    (jgetD teamGamesMap b.id []) (by
      intro x hx
      rw [List.mem_singleton.mp hx]
      exact List.mem_map_of_mem (·.id) ha)
  have := hmono.1
  unfold pairRec poolRec at *
  omega

theorem filter_length_le_one (pool : List Team) (p : Team → Bool)
    (hnodup : (pool.map (·.id)).Nodup)
    (huniq : ∀ a ∈ pool, p a = true → ∀ b ∈ pool, p b = true → a.id = b.id) :
    (pool.filter p).length ≤ 1 := by
  have hnd : pool.Nodup := List.Nodup.of_map (·.id) hnodup
  cases hf : pool.filter p with
  | nil => simp
  | cons x rest =>
      cases rest with
      | nil => simp
      | cons y rest2 =>
          exfalso
          have hx : x ∈ pool ∧ p x = true := by
            have : x ∈ pool.filter p := by rw [hf]; exact List.mem_cons_self _ _
            exact ⟨List.mem_of_mem_filter this, List.of_mem_filter this⟩
          have hy : y ∈ pool ∧ p y = true := by
            have : y ∈ pool.filter p := by
              rw [hf]; exact List.mem_cons_of_mem _ (List.mem_cons_self _ _)
            exact ⟨List.mem_of_mem_filter this, List.of_mem_filter this⟩
          have hfil_nodup : (pool.filter p).Nodup := List.Nodup.filter p hnd
          rw [hf] at hfil_nodup
          have hxy : x ≠ y := by
            have := (List.nodup_cons.mp hfil_nodup).1
            intro heq
            exact this (heq ▸ List.mem_cons_self y rest2)
          exact hxy (id_inj pool hnodup x y hx.1 hy.1
            (huniq x hx.1 hx.2 y hy.1 hy.2))


/-- C2. For pools of three or more candidates with consistent head-to-head
data, `applyMultiTeamSweepH2H` eliminates nobody unless exactly one candidate
is a clean sweeper (that sweeper alone survives) or some candidate is cleanly
swept (the swept candidate is eliminated); in any other configuration —
including the cycle A beats B, B beats C, C beats A — the pool is returned
unchanged. -/
theorem multiTeamSweep_trichotomy (pool : List Team)
    (gameResults : JMap String) (teamGamesMap : JMap (List Game))
    (h3 : 3 ≤ pool.length)
    (hnodup : (pool.map (·.id)).Nodup)
    (hwf : h2hConsistent pool gameResults teamGamesMap) :
    (∀ s : Team, pool.filter (sweeperPred pool gameResults teamGamesMap) = [s] →
        applyMultiTeamSweepH2H pool gameResults teamGamesMap
          = { survivors := [s], eliminated := true })
    ∧ ((pool.filter (sweeperPred pool gameResults teamGamesMap)).length ≠ 1 →
        pool.filter (sweptPred pool gameResults teamGamesMap) ≠ [] →
        applyMultiTeamSweepH2H pool gameResults teamGamesMap
          = { survivors := pool.filter
                (fun t => !(sweptPred pool gameResults teamGamesMap t)),
              eliminated := true })
    ∧ ((pool.filter (sweeperPred pool gameResults teamGamesMap)).length ≠ 1 →
        pool.filter (sweptPred pool gameResults teamGamesMap) = [] →
        applyMultiTeamSweepH2H pool gameResults teamGamesMap
          = { survivors := pool, eliminated := false }) := by
  have hle2 : ¬ pool.length ≤ 2 := by omega
  have hrec_sweep : (pool.map (fun t => (t, getH2HRecord t.id (pool.map (·.id))
        (jgetD teamGamesMap t.id []) gameResults))).filter
        (fun r => isSweeperRec pool.length r.2)
      = (pool.filter (sweeperPred pool gameResults teamGamesMap)).map
          (fun t => (t, getH2HRecord t.id (pool.map (·.id))
            (jgetD teamGamesMap t.id []) gameResults)) := by
    rw [filter_of_map]
    rfl
  have hrec_swept : (pool.map (fun t => (t, getH2HRecord t.id (pool.map (·.id))
        (jgetD teamGamesMap t.id []) gameResults))).filter
        (fun r => isSweptRec pool.length r.2)
      = (pool.filter (sweptPred pool gameResults teamGamesMap)).map
          (fun t => (t, getH2HRecord t.id (pool.map (·.id))
            (jgetD teamGamesMap t.id []) gameResults)) := by
    rw [filter_of_map]
    rfl
  have hsweptIds : ((pool.filter (sweptPred pool gameResults teamGamesMap)).map
        (fun t => (t, getH2HRecord t.id (pool.map (·.id))
          (jgetD teamGamesMap t.id []) gameResults))).map (fun s => s.1.id)
      = (pool.filter (sweptPred pool gameResults teamGamesMap)).map (·.id) := by
    rw [List.map_map]
    rfl
  have hfilter_eq : pool.filter (fun t => decide (¬ t.id ∈
        (pool.filter (sweptPred pool gameResults teamGamesMap)).map (·.id)))
      = pool.filter (fun t => !(sweptPred pool gameResults teamGamesMap t)) := by
    apply List.filter_congr
    intro t ht
    by_cases hsw : sweptPred pool gameResults teamGamesMap t = true
    · have htW : t ∈ pool.filter (sweptPred pool gameResults teamGamesMap) :=
        List.mem_filter.mpr ⟨ht, hsw⟩
      have : t.id ∈ (pool.filter (sweptPred pool gameResults teamGamesMap)).map (·.id) :=
        List.mem_map_of_mem (·.id) htW
      simp [this, hsw]
    · have hnot : ¬ t.id ∈ (pool.filter (sweptPred pool gameResults teamGamesMap)).map (·.id) := by
        intro hmem
        obtain ⟨w, hwW, hwid⟩ := List.mem_map.mp hmem
        have hwpool := List.mem_of_mem_filter hwW
        have hwsw := List.of_mem_filter hwW
        have : w = t := id_inj pool hnodup w t hwpool ht hwid
        rw [this] at hwsw
        exact hsw hwsw
      simp [hnot, hsw]
  refine ⟨?_, ?_, ?_⟩
  · intro s hS
    unfold applyMultiTeamSweepH2H
    rw [if_neg hle2]
    dsimp only
    rw [hrec_sweep, hS]
    rfl
  · intro hS1 hW
    have hWle := filter_length_le_one pool (sweptPred pool gameResults teamGamesMap)
      hnodup (fun a ha hpa b hb hpb =>
        swept_unique pool gameResults teamGamesMap hnodup hwf a ha hpa b hb hpb)
    have hWlen0 : (pool.filter (sweptPred pool gameResults teamGamesMap)).length ≠ 0 := by
      intro h
      exact hW (List.length_eq_zero.mp h)
    have hcond : (((pool.filter (sweptPred pool gameResults teamGamesMap)).map
          (fun t => (t, getH2HRecord t.id (pool.map (·.id))
            (jgetD teamGamesMap t.id []) gameResults))).length != 0
        && decide (((pool.filter (sweptPred pool gameResults teamGamesMap)).map
          (fun t => (t, getH2HRecord t.id (pool.map (·.id))
            (jgetD teamGamesMap t.id []) gameResults))).length < pool.length)) = true := by
      rw [List.length_map]
      simp only [Bool.and_eq_true, bne_iff_ne, ne_eq, decide_eq_true_eq]
      exact ⟨hWlen0, by omega⟩
    unfold applyMultiTeamSweepH2H
    rw [if_neg hle2]
    dsimp only
    rw [hrec_sweep]
    cases hS : pool.filter (sweeperPred pool gameResults teamGamesMap) with
    | nil =>
        dsimp only [List.map_nil]
        rw [hrec_swept, if_pos hcond, hsweptIds, hfilter_eq]
    | cons a tail =>
        cases tail with
        | nil => exact absurd (by rw [hS]; rfl) hS1
        | cons b rest =>
            dsimp only [List.map_cons]
            rw [hrec_swept, if_pos hcond, hsweptIds, hfilter_eq]
  · intro hS1 hW
    have hcond : (((pool.filter (sweptPred pool gameResults teamGamesMap)).map
          (fun t => (t, getH2HRecord t.id (pool.map (·.id))
            (jgetD teamGamesMap t.id []) gameResults))).length != 0
        && decide (((pool.filter (sweptPred pool gameResults teamGamesMap)).map
          (fun t => (t, getH2HRecord t.id (pool.map (·.id))
            (jgetD teamGamesMap t.id []) gameResults))).length < pool.length)) = false := by
      rw [hW]
      rfl
    unfold applyMultiTeamSweepH2H
    rw [if_neg hle2]
    dsimp only
    rw [hrec_sweep]
    cases hS : pool.filter (sweeperPred pool gameResults teamGamesMap) with
    | nil =>
        dsimp only [List.map_nil]
        rw [hrec_swept, if_neg (by rw [hcond]; exact fun h => Bool.false_ne_true h)]
    | cons a tail =>
        cases tail with
        | nil => exact absurd (by rw [hS]; rfl) hS1
        | cons b rest =>
            dsimp only [List.map_cons]
            rw [hrec_swept, if_neg (by rw [hcond]; exact fun h => Bool.false_ne_true h)]


/-- Cycle fixture for C2: A beats B, B beats C, C beats A. -/
def cyclePool : List Team := [tA, tB, tC]

def cycleResults : JMap String := [("gAB", "A"), ("gBC", "B"), ("gCA", "C")]

def cycleGames : JMap (List Game) :=
  [ ("A", [mkFinGame "gAB" "A" "B" "A", mkFinGame "gCA" "C" "A" "C"]),
    ("B", [mkFinGame "gAB" "A" "B" "A", mkFinGame "gBC" "B" "C" "B"]),
    ("C", [mkFinGame "gBC" "B" "C" "B", mkFinGame "gCA" "C" "A" "C"]) ]

/-- Witness for C2 at the three-team cycle: no clean sweep and no clean
sweep-out exist, and the pool falls through unchanged. -/
theorem multiTeamSweep_trichotomy_witness :
    3 ≤ cyclePool.length
    ∧ (cyclePool.map (·.id)).Nodup
    ∧ (cyclePool.filter (sweeperPred cyclePool cycleResults cycleGames)).length ≠ 1
    ∧ cyclePool.filter (sweptPred cyclePool cycleResults cycleGames) = []
    ∧ applyMultiTeamSweepH2H cyclePool cycleResults cycleGames
        = { survivors := cyclePool, eliminated := false } := by
  have hwf : h2hConsistent cyclePool cycleResults cycleGames := by
    unfold h2hConsistent
    decide
  refine ⟨by decide, by decide, by decide, by decide, ?_⟩
  exact (multiTeamSweep_trichotomy cyclePool cycleResults cycleGames
    (by decide) (by decide) hwf).2.2 (by decide) (by decide)


-- --- C9: sortTeams returns a permutation of its input ---

theorem insertSorted_perm {α : Type} (le : α → α → Bool) (x : α) :
    ∀ l : List α, (insertSorted le x l).Perm (x :: l) := by
  intro l
  induction l with
  | nil => exact List.Perm.refl _
  | cons y ys ih =>
      unfold insertSorted
      by_cases h : le x y = true
      · rw [if_pos h]
      · rw [if_neg h]
        exact (List.Perm.cons y ih).trans (List.Perm.swap x y ys)

theorem jsSortBy_perm {α : Type} (le : α → α → Bool) :
    ∀ l : List α, (jsSortBy le l).Perm l := by
  intro l
  induction l with
  | nil => exact List.Perm.refl _
  | cons x xs ih =>
      unfold jsSortBy
      exact (insertSorted_perm le x (jsSortBy le xs)).trans (List.Perm.cons x ih)

theorem jset_mem {α : Type} (m : JMap α) (k : String) (v : α) :
    ∀ e ∈ jset m k v, e = (k, v) ∨ e ∈ m := by
  induction m with
  | nil =>
      intro e he
      unfold jset at he
      left
      exact List.mem_singleton.mp he
  | cons f rest ih =>
      intro e he
      unfold jset at he
      by_cases hk : f.1 = k
      · rw [if_pos hk] at he
        rcases List.mem_cons.mp he with he | he
        · left; rw [he, hk]
        · right; exact List.mem_cons_of_mem f he
      · rw [if_neg hk] at he
        rcases List.mem_cons.mp he with he | he
        · right; rw [he]; exact List.mem_cons_self f rest
        · rcases ih e he with h | h
          · left; exact h
          · right; exact List.mem_cons_of_mem f h

theorem jset_keys {α : Type} (m : JMap α) (k : String) (v : α) :
    jkeys (jset m k v) = jkeys m ∨ jkeys (jset m k v) = jkeys m ++ [k] := by
  induction m with
  | nil => right; rfl
  | cons f rest ih =>
      unfold jset
      by_cases hk : f.1 = k
      · rw [if_pos hk]
        left
        simp [jkeys]
      · rw [if_neg hk]
        rcases ih with h | h
        · left; simp only [jkeys, List.map_cons] at *; rw [h]
        · right; simp only [jkeys, List.map_cons] at *; rw [h]; rfl

theorem jset_keys_nodup {α : Type} (m : JMap α) (k : String) (v : α)
    (h : (jkeys m).Nodup) : (jkeys (jset m k v)).Nodup := by
  induction m with
  | nil => simp [jset, jkeys]
  | cons f rest ih =>
      unfold jset
      simp only [jkeys, List.map_cons, List.nodup_cons] at h
      by_cases hk : f.1 = k
      · rw [if_pos hk]
        simp only [jkeys, List.map_cons, List.nodup_cons]
        exact h
      · rw [if_neg hk]
        simp only [jkeys, List.map_cons, List.nodup_cons]
        constructor
        · intro hmem
          rcases jset_keys rest k v with hkk | hkk
          · unfold jkeys at hkk
            rw [hkk] at hmem
            exact h.1 hmem
          · unfold jkeys at hkk
            rw [hkk] at hmem
            rcases List.mem_append.mp hmem with hmem | hmem
            · exact h.1 hmem
            · exact hk (List.mem_singleton.mp hmem)
        · exact ih h.2

theorem jset_ne_nil {α : Type} (m : JMap α) (k : String) (v : α) :
    jset m k v ≠ [] := by
  cases m with
  | nil => simp [jset]
  | cons f rest =>
      unfold jset
      by_cases hk : f.1 = k
      · rw [if_pos hk]; simp
      · rw [if_neg hk]; simp

theorem foldl_append_eq {α β : Type} (c : β → List α) :
    ∀ (l : List β) (acc : List α),
    l.foldl (fun f e => f ++ c e) acc = acc ++ l.flatMap c := by
  intro l
  induction l with
  | nil => intro acc; simp
  | cons e rest ih =>
      intro acc
      simp only [List.foldl_cons, List.flatMap_cons, ih, List.append_assoc]

theorem groupByDivision_fold_inv (pool : List Team) :
    ∀ (l : List Team) (m : JMap (List Team)),
    (∀ t ∈ l, t ∈ pool) →
    (l.map (·.id)).Nodup →
    (∀ u ∈ l, ∀ e ∈ m, ¬ u.id ∈ e.2.map (·.id)) →
    (jkeys m).Nodup →
    (∀ e ∈ m, e.2 ≠ [] ∧ (e.2.map (·.id)).Nodup
      ∧ ∀ t ∈ e.2, t ∈ pool ∧ t.division = e.1) →
    (jkeys (l.foldl (fun m t => jset m t.division (jgetD m t.division [] ++ [t])) m)).Nodup
    ∧ ∀ e ∈ (l.foldl (fun m t => jset m t.division (jgetD m t.division [] ++ [t])) m),
        e.2 ≠ [] ∧ (e.2.map (·.id)).Nodup
        ∧ ∀ t ∈ e.2, t ∈ pool ∧ t.division = e.1 := by
  intro l
  induction l with
  | nil => intro m _ _ _ h1 h2; exact ⟨h1, h2⟩
  | cons t rest ih =>
      intro m hl hlnodup hfresh h1 h2
      simp only [List.map_cons, List.nodup_cons] at hlnodup
      have hold : ∀ u ∈ jgetD m t.division [], u ∈ pool ∧ u.division = t.division := by
        intro u hu
        unfold jgetD at hu
        cases hg : jget m t.division with
        | none => rw [hg] at hu; simp at hu
        | some old =>
            rw [hg] at hu
            simp only [Option.getD_some] at hu
            exact (h2 _ (jget_mem m t.division old hg)).2.2 u hu
      have hold_nodup : ((jgetD m t.division []).map (·.id)).Nodup := by
        unfold jgetD
        cases hg : jget m t.division with
        | none => simp
        | some old =>
            simp only [Option.getD_some]
            exact (h2 _ (jget_mem m t.division old hg)).2.1
      have ht_not_old : ¬ t.id ∈ (jgetD m t.division []).map (·.id) := by
        unfold jgetD
        cases hg : jget m t.division with
        | none => simp
        | some old =>
            simp only [Option.getD_some]
            exact hfresh t (List.mem_cons_self t rest) _ (jget_mem m t.division old hg)
      simp only [List.foldl_cons]
      apply ih
      · intro u hu; exact hl u (List.mem_cons_of_mem t hu)
      · exact hlnodup.2
      · -- freshness is preserved: later teams' ids are neither in old entries
        -- nor equal to the id just inserted.
        intro u hu e he
        rcases jset_mem m t.division _ e he with he2 | he2
        · rw [he2]
          intro hmem
          simp only [List.map_append, List.mem_append] at hmem
          rcases hmem with hmem | hmem
          · unfold jgetD at hmem
            cases hg : jget m t.division with
            | none => rw [hg] at hmem; simp at hmem
            | some old =>
                rw [hg] at hmem
                simp only [Option.getD_some] at hmem
                exact hfresh u (List.mem_cons_of_mem t hu) (t.division, old)
                  (jget_mem m t.division old hg) hmem
          · simp only [List.map_cons, List.map_nil, List.mem_singleton] at hmem
            exact hlnodup.1 (hmem ▸ List.mem_map_of_mem (·.id) hu)
        · exact hfresh u (List.mem_cons_of_mem t hu) e he2
      · exact jset_keys_nodup m t.division _ h1
      · intro e he
        rcases jset_mem m t.division _ e he with he2 | he2
        · rw [he2]
          refine ⟨by simp, ?_, ?_⟩
          · simp only [List.map_append, List.map_cons, List.map_nil]
            rw [List.nodup_append]
            refine ⟨hold_nodup, List.nodup_singleton _, ?_⟩
            intro x hx
            simp only [List.mem_singleton]
            intro hxid
            rw [hxid] at hx
            exact ht_not_old hx
          · intro u hu
            rcases List.mem_append.mp hu with hu | hu
            · exact hold u hu
            · rw [List.mem_singleton.mp hu]
              exact ⟨hl t (List.mem_cons_self t rest), rfl⟩
        · exact h2 e he2

theorem groupByDivision_inv (pool : List Team)
    (hnodup : (pool.map (·.id)).Nodup) :
    (jkeys (groupByDivision pool)).Nodup
    ∧ ∀ e ∈ groupByDivision pool,
        e.2 ≠ [] ∧ (e.2.map (·.id)).Nodup
        ∧ ∀ t ∈ e.2, t ∈ pool ∧ t.division = e.1 := by
  unfold groupByDivision
  exact groupByDivision_fold_inv pool pool [] (fun t ht => ht) hnodup
    (by intro u _ e he; simp at he) List.nodup_nil (by intro e he; simp at he)

theorem groupByDivision_ne_nil (pool : List Team) (h : pool ≠ []) :
    groupByDivision pool ≠ [] := by
  unfold groupByDivision
  have hgen : ∀ (l : List Team) (m : JMap (List Team)), l ≠ [] ∨ m ≠ [] →
      l.foldl (fun m t => jset m t.division (jgetD m t.division [] ++ [t])) m ≠ [] := by
    intro l
    induction l with
    | nil =>
        intro m hm
        rcases hm with hm | hm
        · exact absurd rfl hm
        · exact hm
    | cons t rest ih =>
        intro m _
        simp only [List.foldl_cons]
        exact ih _ (Or.inr (jset_ne_nil m t.division _))
  exact hgen pool [] (Or.inl h)


theorem scored_filter_map {β : Type} (pool : List Team) (g : Team → β)
    (p : Team × β → Bool) :
    ((pool.map (fun t => (t, g t))).filter p).map (·.1)
      = pool.filter (fun t => p (t, g t)) := by
  rw [filter_of_map, map_fst_pair]

theorem qabs_self_lt_eps (x : ℚ) : decide (qabs (x - x) < EPSILON) = true := by
  rw [sub_self]
  norm_num [qabs, EPSILON]

theorem best_filter_ne_nil (pool : List Team) (hne : pool ≠ []) (val : Team → ℚ) :
    pool.filter (fun t => decide (qabs (val t - jsMaxQ (pool.map val)) < EPSILON)) ≠ [] := by
  have hmapne : pool.map val ≠ [] := by
    intro h
    exact hne (List.map_eq_nil_iff.mp h)
  obtain ⟨t, ht, hval⟩ := List.mem_map.mp (jsMaxQ_mem (pool.map val) hmapne)
  have hpred : decide (qabs (val t - jsMaxQ (pool.map val)) < EPSILON) = true := by
    rw [hval]
    exact qabs_self_lt_eps _
  exact List.ne_nil_of_mem (List.mem_filter.mpr ⟨ht, hpred⟩)

theorem applyBestMetric_sub (pool : List Team) (f : Team → ℚ) :
    (applyBestMetric pool f).survivors.Sublist pool := by
  unfold applyBestMetric
  by_cases h : pool.length ≤ 1
  · rw [if_pos h]
  · rw [if_neg h]
    dsimp only
    rw [scored_filter_map]
    exact List.filter_sublist pool

theorem applyBestMetric_ne (pool : List Team) (f : Team → ℚ) (hne : pool ≠ []) :
    (applyBestMetric pool f).survivors ≠ [] := by
  unfold applyBestMetric
  by_cases h : pool.length ≤ 1
  · rw [if_pos h]; exact hne
  · rw [if_neg h]
    dsimp only
    rw [scored_filter_map]
    have hmax : jsMaxQ ((pool.map (fun t => (t, f t))).map (·.2))
        = jsMaxQ (pool.map f) := by
      rw [List.map_map]
      rfl
    rw [hmax]
    exact best_filter_ne_nil pool hne f

theorem applyCoinToss_sub (pick : List Team → ℕ) (pool : List Team) :
    (applyCoinToss pick pool).survivors.Sublist pool := by
  unfold applyCoinToss
  by_cases h : pool.length ≤ 1
  · rw [if_pos h]
  · rw [if_neg h]
    have hlt : pick pool % pool.length < pool.length :=
      Nat.mod_lt _ (by omega)
    rw [List.getElem?_eq_getElem hlt]
    exact List.singleton_sublist.mpr (List.getElem_mem hlt)

theorem applyCoinToss_ne (pick : List Team → ℕ) (pool : List Team)
    (hne : pool ≠ []) : (applyCoinToss pick pool).survivors ≠ [] := by
  unfold applyCoinToss
  by_cases h : pool.length ≤ 1
  · rw [if_pos h]; exact hne
  · rw [if_neg h]
    have hlt : pick pool % pool.length < pool.length :=
      Nat.mod_lt _ (by omega)
    rw [List.getElem?_eq_getElem hlt]
    simp

theorem applyMultiTeamSweepH2H_sub (pool : List Team) (gr : JMap String)
    (tgm : JMap (List Game)) :
    (applyMultiTeamSweepH2H pool gr tgm).survivors.Sublist pool := by
  unfold applyMultiTeamSweepH2H
  by_cases h : pool.length ≤ 2
  · rw [if_pos h]
  · rw [if_neg h]
    dsimp only
    split
    · rename_i s heq
      have hmem : s ∈ (pool.map (fun t => (t, getH2HRecord t.id
          (pool.map (·.id)) (jgetD tgm t.id []) gr))).filter
          (fun r => isSweeperRec pool.length r.2) := by
        rw [heq]
        exact List.mem_cons_self _ _
      have hmem2 := List.mem_of_mem_filter hmem
      obtain ⟨t, ht, hts⟩ := List.mem_map.mp hmem2
      have : s.1 = t := by rw [← hts]
      rw [this]
      exact List.singleton_sublist.mpr ht
    · split
      · exact List.filter_sublist pool
      · exact List.Sublist.refl pool

theorem applyMultiTeamSweepH2H_ne (pool : List Team) (gr : JMap String)
    (tgm : JMap (List Game)) (hne : pool ≠ [])
    (hnodup : (pool.map (·.id)).Nodup) :
    (applyMultiTeamSweepH2H pool gr tgm).survivors ≠ [] := by
  unfold applyMultiTeamSweepH2H
  by_cases h : pool.length ≤ 2
  · rw [if_pos h]; exact hne
  · rw [if_neg h]
    dsimp only
    split
    · simp
    · split
      · rename_i hcond
        simp only [Bool.and_eq_true, bne_iff_ne, ne_eq, decide_eq_true_eq] at hcond
        dsimp only
        intro hnil
        have hall : ∀ t ∈ pool, t.id ∈ ((pool.map (fun t => (t, getH2HRecord t.id
            (pool.map (·.id)) (jgetD tgm t.id []) gr))).filter
            (fun r => isSweptRec pool.length r.2)).map (fun s => s.1.id) := by
          intro t ht
          by_contra hmem
          have : t ∈ pool.filter (fun t => decide (¬ t.id ∈
              ((pool.map (fun t => (t, getH2HRecord t.id (pool.map (·.id))
                (jgetD tgm t.id []) gr))).filter
                (fun r => isSweptRec pool.length r.2)).map (fun s => s.1.id))) :=
            List.mem_filter.mpr ⟨ht, by simpa using hmem⟩
          rw [hnil] at this
          simp at this
        have hsub : pool.map (·.id) ⊆ ((pool.map (fun t => (t, getH2HRecord t.id
            (pool.map (·.id)) (jgetD tgm t.id []) gr))).filter
            (fun r => isSweptRec pool.length r.2)).map (fun s => s.1.id) := by
          intro x hx
          obtain ⟨t, ht, rfl⟩ := List.mem_map.mp hx
          exact hall t ht
        have hle := (List.subperm_of_subset hnodup hsub).length_le
        rw [List.length_map, List.length_map] at hle
        omega
      · exact hne


theorem applyDivisionH2H_sub (pool : List Team) (gr : JMap String)
    (tgm : JMap (List Game)) :
    (applyDivisionH2H pool gr tgm).survivors.Sublist pool := by
  unfold applyDivisionH2H
  by_cases h1 : pool.length ≤ 1
  · rw [if_pos h1]
  · rw [if_neg h1]
    by_cases h3 : 3 ≤ pool.length
    · rw [if_pos h3]
      exact applyMultiTeamSweepH2H_sub pool gr tgm
    · rw [if_neg h3]
      dsimp only
      rw [scored_filter_map]
      exact List.filter_sublist pool

theorem applyDivisionH2H_ne (pool : List Team) (gr : JMap String)
    (tgm : JMap (List Game)) (hne : pool ≠ [])
    (hnodup : (pool.map (·.id)).Nodup) :
    (applyDivisionH2H pool gr tgm).survivors ≠ [] := by
  unfold applyDivisionH2H
  by_cases h1 : pool.length ≤ 1
  · rw [if_pos h1]; exact hne
  · rw [if_neg h1]
    by_cases h3 : 3 ≤ pool.length
    · rw [if_pos h3]
      exact applyMultiTeamSweepH2H_ne pool gr tgm hne hnodup
    · rw [if_neg h3]
      dsimp only
      rw [scored_filter_map]
      have hmax : jsMaxQ ((pool.map (fun t => (t, getH2HPct (getH2HRecord t.id
          (pool.map (·.id)) (jgetD tgm t.id []) gr)))).map (·.2))
          = jsMaxQ (pool.map (fun t => getH2HPct (getH2HRecord t.id
            (pool.map (·.id)) (jgetD tgm t.id []) gr))) := by
        rw [List.map_map]
        rfl
      rw [hmax]
      exact best_filter_ne_nil pool hne _

theorem applyWildcardH2H_sub (pool : List Team) (gr : JMap String)
    (tgm : JMap (List Game)) :
    (applyWildcardH2H pool gr tgm).survivors.Sublist pool := by
  unfold applyWildcardH2H
  by_cases h1 : pool.length ≤ 1
  · rw [if_pos h1]
  · rw [if_neg h1]
    by_cases h3 : 3 ≤ pool.length
    · rw [if_pos h3]
      exact applyMultiTeamSweepH2H_sub pool gr tgm
    · rw [if_neg h3]
      dsimp only
      rw [scored_filter_map]
      exact List.filter_sublist pool

theorem applyWildcardH2H_ne (pool : List Team) (gr : JMap String)
    (tgm : JMap (List Game)) (hne : pool ≠ [])
    (hnodup : (pool.map (·.id)).Nodup) :
    (applyWildcardH2H pool gr tgm).survivors ≠ [] := by
  unfold applyWildcardH2H
  by_cases h1 : pool.length ≤ 1
  · rw [if_pos h1]; exact hne
  · rw [if_neg h1]
    by_cases h3 : 3 ≤ pool.length
    · rw [if_pos h3]
      exact applyMultiTeamSweepH2H_ne pool gr tgm hne hnodup
    · rw [if_neg h3]
      dsimp only
      rw [scored_filter_map]
      have hmax : jsMaxQ ((pool.map (fun t => (t, getH2HPct (getH2HRecord t.id
          (pool.map (·.id)) (jgetD tgm t.id []) gr)))).map (·.2))
          = jsMaxQ (pool.map (fun t => getH2HPct (getH2HRecord t.id
            (pool.map (·.id)) (jgetD tgm t.id []) gr))) := by
        rw [List.map_map]
        rfl
      rw [hmax]
      exact best_filter_ne_nil pool hne _

theorem applyCommonGames_sub (pool : List Team) (gr : JMap String)
    (om : JMap (List String)) (tgm : JMap (List Game)) :
    (applyCommonGames pool gr om tgm).survivors.Sublist pool := by
  unfold applyCommonGames
  by_cases h1 : pool.length ≤ 1
  · rw [if_pos h1]
  · rw [if_neg h1]
    dsimp only
    split
    · exact List.Sublist.refl pool
    · rw [scored_filter_map]
      exact List.filter_sublist pool

theorem applyCommonGames_ne (pool : List Team) (gr : JMap String)
    (om : JMap (List String)) (tgm : JMap (List Game)) (hne : pool ≠ []) :
    (applyCommonGames pool gr om tgm).survivors ≠ [] := by
  unfold applyCommonGames
  by_cases h1 : pool.length ≤ 1
  · rw [if_pos h1]; exact hne
  · rw [if_neg h1]
    dsimp only
    split
    · exact hne
    · rw [scored_filter_map]
      have hmax : jsMaxQ ((pool.map (fun t =>
          (t, commonGamesPct (getCommonGamesRecord t.id (pool.map (·.id))
            (jgetD tgm t.id []) gr om),
            (getCommonGamesRecord t.id (pool.map (·.id))
              (jgetD tgm t.id []) gr om).valid))).map (·.2.1))
          = jsMaxQ (pool.map (fun t => commonGamesPct (getCommonGamesRecord t.id
            (pool.map (·.id)) (jgetD tgm t.id []) gr om))) := by
        rw [List.map_map]
        rfl
      rw [hmax]
      exact best_filter_ne_nil pool hne _

/-- Soundness of a step function for the permutation argument: survivors are
a sublist of the pool and nonempty for a nonempty pool with distinct ids. -/
def stepsOK (steps : List (List Team → TiebreakerResult)) : Prop :=
  ∀ step ∈ steps,
    (∀ p : List Team, (step p).survivors.Sublist p)
    ∧ (∀ p : List Team, p ≠ [] → ((p.map (·.id)).Nodup) → (step p).survivors ≠ [])

theorem buildSteps_ok (ty : TiebreakType) (sm : TeamStatsMap)
    (gr : JMap String) (om : JMap (List String)) (tgm : JMap (List Game)) :
    stepsOK (buildTiebreakerSteps ty sm gr om tgm) := by
  intro step hstep
  cases ty <;> simp only [buildTiebreakerSteps, List.mem_cons,
    List.not_mem_nil, or_false] at hstep
  · rcases hstep with h | h | h | h | h | h <;> subst h
    · exact ⟨fun p => applyDivisionH2H_sub p gr tgm,
        fun p hp hn => applyDivisionH2H_ne p gr tgm hp hn⟩
    · exact ⟨fun p => applyBestMetric_sub p _,
        fun p hp _ => applyBestMetric_ne p _ hp⟩
    · exact ⟨fun p => applyCommonGames_sub p gr om tgm,
        fun p hp _ => applyCommonGames_ne p gr om tgm hp⟩
    · exact ⟨fun p => applyBestMetric_sub p _,
        fun p hp _ => applyBestMetric_ne p _ hp⟩
    · exact ⟨fun p => applyBestMetric_sub p _,
        fun p hp _ => applyBestMetric_ne p _ hp⟩
    · exact ⟨fun p => applyBestMetric_sub p _,
        fun p hp _ => applyBestMetric_ne p _ hp⟩
  · rcases hstep with h | h | h | h | h <;> subst h
    · exact ⟨fun p => applyWildcardH2H_sub p gr tgm,
        fun p hp hn => applyWildcardH2H_ne p gr tgm hp hn⟩
    · exact ⟨fun p => applyBestMetric_sub p _,
        fun p hp _ => applyBestMetric_ne p _ hp⟩
    · exact ⟨fun p => applyCommonGames_sub p gr om tgm,
        fun p hp _ => applyCommonGames_ne p gr om tgm hp⟩
    · exact ⟨fun p => applyBestMetric_sub p _,
        fun p hp _ => applyBestMetric_ne p _ hp⟩
    · exact ⟨fun p => applyBestMetric_sub p _,
        fun p hp _ => applyBestMetric_ne p _ hp⟩

theorem tbLoop_good (pick : List Team → ℕ)
    (steps : List (List Team → TiebreakerResult)) (hsteps : stepsOK steps) :
    ∀ (fuel : ℕ) (pool : List Team) (stepIdx : ℕ),
    (tbLoop pick steps pool stepIdx fuel).Sublist pool
    ∧ (pool ≠ [] → (pool.map (·.id)).Nodup →
        tbLoop pick steps pool stepIdx fuel ≠ []) := by
  intro fuel
  induction fuel with
  | zero =>
      intro pool stepIdx
      exact ⟨applyCoinToss_sub pick pool, fun hp _ => applyCoinToss_ne pick pool hp⟩
  | succ fuel ih =>
      intro pool stepIdx
      cases hstep : steps[stepIdx]? with
      | none =>
          simp only [tbLoop, hstep]
          exact ⟨applyCoinToss_sub pick pool, fun hp _ => applyCoinToss_ne pick pool hp⟩
      | some step =>
          have hmem : step ∈ steps := by
            have := List.getElem?_eq_some_iff.mp hstep
            obtain ⟨hlt, heq⟩ := this
            rw [← heq]
            exact List.getElem_mem hlt
          have hOK := hsteps step hmem
          simp only [tbLoop, hstep]
          by_cases helim : (step pool).eliminated = true
          · rw [if_pos helim]
            by_cases hlen : ((step pool).survivors.length == 1) = true
            · rw [if_pos hlen]
              refine ⟨hOK.1 pool, fun _ _ => ?_⟩
              simp only [beq_iff_eq] at hlen
              intro hnil
              rw [hnil] at hlen
              simp at hlen
            · rw [if_neg hlen]
              have hsub := hOK.1 pool
              have hih := ih (step pool).survivors 0
              refine ⟨hih.1.trans hsub, fun hp hn => ?_⟩
              exact hih.2 (hOK.2 pool hp hn)
                (List.Nodup.sublist (hsub.map (·.id)) hn)
          · rw [if_neg helim]
            exact ih pool (stepIdx + 1)

theorem runTiebreakSteps_good (pick : List Team → ℕ) (ty : TiebreakType)
    (sm : TeamStatsMap) (gr : JMap String) (om : JMap (List String))
    (tgm : JMap (List Game)) (pool : List Team) :
    (runTiebreakSteps pick ty sm gr om tgm pool).Sublist pool
    ∧ (pool ≠ [] → (pool.map (·.id)).Nodup →
        runTiebreakSteps pick ty sm gr om tgm pool ≠ []) := by
  unfold runTiebreakSteps
  by_cases h : (pool.length == 1) = true
  · rw [if_pos h]
    exact ⟨List.Sublist.refl pool, fun hp _ => hp⟩
  · rw [if_neg h]
    exact tbLoop_good pick _ (buildSteps_ok ty sm gr om tgm) MAX_ITERATIONS pool 0


theorem divisionRepresentative_props (pick : List Team → ℕ) (sm : TeamStatsMap)
    (gr : JMap String) (om : JMap (List String)) (tgm : JMap (List Game))
    (l : List Team) (hne : l ≠ []) (hnodup : (l.map (·.id)).Nodup) :
    (∀ x ∈ divisionRepresentative pick sm gr om tgm l, x ∈ l)
    ∧ divisionRepresentative pick sm gr om tgm l ≠ []
    ∧ (divisionRepresentative pick sm gr om tgm l).length ≤ 1 := by
  match l, hne with
  | [t], _ =>
      refine ⟨?_, by simp [divisionRepresentative], by simp [divisionRepresentative]⟩
      intro x hx
      simpa [divisionRepresentative] using hx
  | [], h => exact absurd rfl h
  | t1 :: t2 :: rest, _ =>
      have hgood := runTiebreakSteps_good pick TiebreakType.division sm gr om tgm
        (t1 :: t2 :: rest)
      have hrepr : divisionRepresentative pick sm gr om tgm (t1 :: t2 :: rest)
          = (findTiebreakerWinnerDiv pick (t1 :: t2 :: rest) sm gr om tgm).take 1 := by
        rfl
      rw [hrepr]
      unfold findTiebreakerWinnerDiv
      refine ⟨?_, ?_, ?_⟩
      · intro x hx
        exact hgood.1.subset ((List.take_sublist 1 _).subset hx)
      · cases hr : runTiebreakSteps pick TiebreakType.division sm gr om tgm
            (t1 :: t2 :: rest) with
        | nil => exact absurd hr (hgood.2 (by simp) hnodup)
        | cons x xs => simp [hr]
      · cases hr : runTiebreakSteps pick TiebreakType.division sm gr om tgm
            (t1 :: t2 :: rest) with
        | nil => simp
        | cons x xs => simp [hr]

theorem nodup_ids_of_short {l : List Team} (h : l.length ≤ 1) :
    (l.map (·.id)).Nodup := by
  match l, h with
  | [], _ => simp
  | [t], _ => simp

theorem flatMap_repr_nodup (pick : List Team → ℕ) (sm : TeamStatsMap)
    (gr : JMap String) (om : JMap (List String)) (tgm : JMap (List Game))
    (pool : List Team) (hnodup : (pool.map (·.id)).Nodup) :
    ∀ entries : List (String × List Team),
    (jkeys entries).Nodup →
    (∀ e ∈ entries, e.2 ≠ [] ∧ (e.2.map (·.id)).Nodup
      ∧ ∀ t ∈ e.2, t ∈ pool ∧ t.division = e.1) →
    ((entries.flatMap (fun e => divisionRepresentative pick sm gr om tgm e.2)).map
      (·.id)).Nodup := by
  intro entries
  induction entries with
  | nil => intro _ _; simp
  | cons e rest ih =>
      intro hkeys hprops
      simp only [jkeys, List.map_cons, List.nodup_cons] at hkeys
      have he := hprops e (List.mem_cons_self e rest)
      have hrepr := divisionRepresentative_props pick sm gr om tgm e.2 he.1 he.2.1
      simp only [List.flatMap_cons, List.map_append]
      rw [List.nodup_append]
      refine ⟨nodup_ids_of_short hrepr.2.2, ih hkeys.2
        (fun e2 he2 => hprops e2 (List.mem_cons_of_mem e he2)), ?_⟩
      intro x hx hx2
      obtain ⟨a, ha, haid⟩ := List.mem_map.mp hx
      obtain ⟨b, hb, hbid⟩ := List.mem_map.mp hx2
      have ha2 : a ∈ e.2 := hrepr.1 a ha
      obtain ⟨e3, he3, hbrep3⟩ := List.mem_flatMap.mp hb
      have hprops3 := hprops e3 (List.mem_cons_of_mem e he3)
      have hrepr3 := divisionRepresentative_props pick sm gr om tgm e3.2
        hprops3.1 hprops3.2.1
      have hbpool : b ∈ pool := (hprops3.2.2 b (hrepr3.1 b hbrep3)).1
      have hapool : a ∈ pool := (he.2.2 a ha2).1
      have hab : a = b := id_inj pool hnodup a b hapool hbpool
        (by rw [haid, ← hbid])
      have hadiv : a.division = e.1 := (he.2.2 a ha2).2
      have hbdiv : b.division = e3.1 := (hprops3.2.2 b (hrepr3.1 b hbrep3)).2
      apply hkeys.1
      have heq : e.1 = e3.1 := by rw [← hadiv, hab, hbdiv]
      rw [heq]
      exact List.mem_map_of_mem (·.1) he3

theorem wildcardPrestep_good (pick : List Team → ℕ) (sm : TeamStatsMap)
    (gr : JMap String) (om : JMap (List String)) (tgm : JMap (List Game))
    (pool : List Team) (hnodup : (pool.map (·.id)).Nodup) :
    (∀ x ∈ wildcardPrestep pick sm gr om tgm pool, x ∈ pool)
    ∧ ((wildcardPrestep pick sm gr om tgm pool).map (·.id)).Nodup
    ∧ (pool ≠ [] → wildcardPrestep pick sm gr om tgm pool ≠ []) := by
  have hflat : wildcardPrestep pick sm gr om tgm pool
      = (groupByDivision pool).flatMap
          (fun e => divisionRepresentative pick sm gr om tgm e.2) := by
    unfold wildcardPrestep
    rw [foldl_append_eq]
    simp
  have hinv := groupByDivision_inv pool hnodup
  rw [hflat]
  refine ⟨?_, ?_, ?_⟩
  · intro x hx
    obtain ⟨e, he, hxe⟩ := List.mem_flatMap.mp hx
    have hprops := hinv.2 e he
    have hrepr := divisionRepresentative_props pick sm gr om tgm e.2
      hprops.1 hprops.2.1
    exact (hprops.2.2 x (hrepr.1 x hxe)).1
  · exact flatMap_repr_nodup pick sm gr om tgm pool hnodup
      (groupByDivision pool) hinv.1 hinv.2
  · intro hpne
    have hene := groupByDivision_ne_nil pool hpne
    cases hgd : groupByDivision pool with
    | nil => exact absurd hgd hene
    | cons e rest =>
        have hprops := hinv.2 e (by rw [hgd]; exact List.mem_cons_self e rest)
        have hrepr := divisionRepresentative_props pick sm gr om tgm e.2
          hprops.1 hprops.2.1
        simp only [hgd, List.flatMap_cons]
        intro hnil
        rcases List.append_eq_nil.mp hnil with ⟨h1, _⟩
        exact hrepr.2.1 h1

theorem findTiebreakerWinner_good (pick : List Team → ℕ)
    (cand : List Team) (sm : TeamStatsMap) (gr : JMap String)
    (ty : TiebreakType) (om : JMap (List String)) (tgm : JMap (List Game))
    (hnodup : (cand.map (·.id)).Nodup) :
    (∀ x ∈ findTiebreakerWinner pick cand sm gr ty om tgm, x ∈ cand)
    ∧ ((findTiebreakerWinner pick cand sm gr ty om tgm).map (·.id)).Nodup
    ∧ (cand ≠ [] → findTiebreakerWinner pick cand sm gr ty om tgm ≠ []) := by
  cases ty with
  | division =>
      have hgood := runTiebreakSteps_good pick TiebreakType.division sm gr om tgm cand
      unfold findTiebreakerWinner
      simp only [reduceCtorEq, if_false]
      exact ⟨fun x hx => hgood.1.subset hx,
        List.Nodup.sublist (hgood.1.map (·.id)) hnodup,
        fun hp => hgood.2 hp hnodup⟩
  | wildcard =>
      have hpre := wildcardPrestep_good pick sm gr om tgm cand hnodup
      have hgood := runTiebreakSteps_good pick TiebreakType.wildcard sm gr om tgm
        (wildcardPrestep pick sm gr om tgm cand)
      unfold findTiebreakerWinner
      simp only [if_true]
      refine ⟨?_, ?_, ?_⟩
      · intro x hx
        exact hpre.1 x (hgood.1.subset hx)
      · exact List.Nodup.sublist (hgood.1.map (·.id)) hpre.2.1
      · intro hp
        exact hgood.2 (hpre.2.2 hp) hpre.2.1


theorem winner_partition_perm (W R : List Team)
    (hWR : ∀ x ∈ W, x ∈ R) (hWn : (W.map (·.id)).Nodup)
    (hRn : (R.map (·.id)).Nodup) :
    (W ++ R.filter (fun t => decide (¬ t.id ∈ W.map (·.id)))).Perm R := by
  have hpred : (fun t : Team => decide (¬ t.id ∈ W.map (·.id)))
      = (fun t : Team => !decide (t.id ∈ W.map (·.id))) := by
    funext t
    exact decide_not
  rw [hpred]
  refine List.Perm.trans
    (List.Perm.append ?_ (List.Perm.refl _))
    (List.filter_append_perm (fun t : Team => decide (t.id ∈ W.map (·.id))) R)
  apply (List.perm_ext_iff_of_nodup (List.Nodup.of_map _ hWn)
    (List.Nodup.filter _ (List.Nodup.of_map _ hRn))).mpr
  intro x
  constructor
  · intro hx
    refine List.mem_filter.mpr ⟨hWR x hx, ?_⟩
    simp only [decide_eq_true_eq]
    exact List.mem_map_of_mem (·.id) hx
  · intro hx
    obtain ⟨hxR, hxid⟩ := List.mem_filter.mp hx
    simp only [decide_eq_true_eq] at hxid
    obtain ⟨w, hw, hwid⟩ := List.mem_map.mp hxid
    have hwx : w = x := id_inj R hRn w x (hWR w hw) hxR hwid
    rwa [← hwx]

theorem resolveLoop_perm (pick : List Team → ℕ) (sm : TeamStatsMap)
    (gr : JMap String) (ty : TiebreakType) (om : JMap (List String))
    (tgm : JMap (List Game)) :
    ∀ (fuel : ℕ) (ranked remaining : List Team),
    (remaining.map (·.id)).Nodup →
    (resolveLoop pick sm gr ty om tgm ranked remaining fuel).Perm
      (ranked ++ remaining) := by
  intro fuel
  induction fuel with
  | zero => intro ranked remaining _; exact List.Perm.refl _
  | succ n ih =>
      intro ranked remaining hnd
      match remaining with
      | [] => simp [resolveLoop]
      | [t] => simp [resolveLoop]
      | t1 :: t2 :: rest =>
          have hgood := findTiebreakerWinner_good pick (t1 :: t2 :: rest) sm gr
            ty om tgm hnd
          have hstep : resolveLoop pick sm gr ty om tgm ranked
              (t1 :: t2 :: rest) (n + 1)
              = resolveLoop pick sm gr ty om tgm
                (ranked ++ findTiebreakerWinner pick (t1 :: t2 :: rest) sm gr ty om tgm)
                ((t1 :: t2 :: rest).filter
                  (fun t => decide (¬ t.id ∈
                    (findTiebreakerWinner pick (t1 :: t2 :: rest) sm gr ty om tgm).map
                      (·.id)))) n := rfl
          rw [hstep]
          have hndf : (((t1 :: t2 :: rest).filter
              (fun t => decide (¬ t.id ∈
                (findTiebreakerWinner pick (t1 :: t2 :: rest) sm gr ty om tgm).map
                  (·.id)))).map (·.id)).Nodup :=
            List.Nodup.sublist
              ((List.filter_sublist (t1 :: t2 :: rest)).map (·.id)) hnd
          refine List.Perm.trans (ih _ _ hndf) ?_
          rw [List.append_assoc]
          exact List.Perm.append_left ranked
            (winner_partition_perm _ (t1 :: t2 :: rest) hgood.1 hgood.2.1 hnd)

theorem resolveTiedGroup_perm (pick : List Team → ℕ) (group : List Team)
    (sm : TeamStatsMap) (gr : JMap String) (ty : TiebreakType)
    (om : JMap (List String)) (tgm : JMap (List Game))
    (hnd : (group.map (·.id)).Nodup) :
    (resolveTiedGroup pick group sm gr ty om tgm).Perm group := by
  have h := resolveLoop_perm pick sm gr ty om tgm group.length [] group hnd
  simpa [resolveTiedGroup] using h

theorem groupLoop_perm (pick : List Team → ℕ) (sm : TeamStatsMap)
    (gr : JMap String) (ty : TiebreakType) (om : JMap (List String))
    (tgm : JMap (List Game)) :
    ∀ (n : ℕ) (l : List Team), l.length ≤ n → (l.map (·.id)).Nodup →
    (groupLoop pick sm gr ty om tgm l).Perm l := by
  intro n
  induction n with
  | zero =>
      intro l hl _
      have : l = [] := List.length_eq_zero.mp (Nat.le_zero.mp hl)
      subst this
      simp [groupLoop]
  | succ n ih =>
      intro l hl hnd
      match l with
      | [] => simp [groupLoop]
      | t :: rest =>
          rw [groupLoop]
          have htied : (t :: rest.takeWhile (fun u =>
              decide (qabs (getWinPct (jget sm u.id)
                - getWinPct (jget sm t.id)) < EPSILON))).Sublist (t :: rest) :=
            List.Sublist.cons₂ t (List.takeWhile_sublist _)
          have hrest2 : (rest.dropWhile (fun u =>
              decide (qabs (getWinPct (jget sm u.id)
                - getWinPct (jget sm t.id)) < EPSILON))).Sublist (t :: rest) :=
            List.Sublist.trans (List.dropWhile_sublist _)
              (List.sublist_cons_self t rest)
          have hndt : ((t :: rest.takeWhile (fun u =>
              decide (qabs (getWinPct (jget sm u.id)
                - getWinPct (jget sm t.id)) < EPSILON))).map (·.id)).Nodup :=
            List.Nodup.sublist (htied.map (·.id)) hnd
          have hndr : ((rest.dropWhile (fun u =>
              decide (qabs (getWinPct (jget sm u.id)
                - getWinPct (jget sm t.id)) < EPSILON))).map (·.id)).Nodup :=
            List.Nodup.sublist (hrest2.map (·.id)) hnd
          have hlen : (rest.dropWhile (fun u =>
              decide (qabs (getWinPct (jget sm u.id)
                - getWinPct (jget sm t.id)) < EPSILON))).length ≤ n :=
            Nat.le_trans ((List.dropWhile_sublist _).length_le)
              (Nat.le_of_succ_le_succ hl)
          have hch := ih _ hlen hndr
          have hbranch : ((if (t :: rest.takeWhile (fun u =>
              decide (qabs (getWinPct (jget sm u.id)
                - getWinPct (jget sm t.id)) < EPSILON))).length == 1 then
                (t :: rest.takeWhile (fun u =>
                  decide (qabs (getWinPct (jget sm u.id)
                    - getWinPct (jget sm t.id)) < EPSILON)))
              else resolveTiedGroup pick (t :: rest.takeWhile (fun u =>
                decide (qabs (getWinPct (jget sm u.id)
                  - getWinPct (jget sm t.id)) < EPSILON))) sm gr ty om tgm)).Perm
              (t :: rest.takeWhile (fun u =>
                decide (qabs (getWinPct (jget sm u.id)
                  - getWinPct (jget sm t.id)) < EPSILON))) := by
            split
            · exact List.Perm.refl _
            · exact resolveTiedGroup_perm pick _ sm gr ty om tgm hndt
          refine List.Perm.trans (List.Perm.append hbranch hch) ?_
          rw [List.cons_append, List.takeWhile_append_dropWhile]

theorem sortTeams_perm_core (pick : List Team → ℕ) (teams : List Team)
    (sm : TeamStatsMap) (allGames : List Game) (gr : JMap String)
    (ty : TiebreakType) (om : JMap (List String))
    (tgm : Option (JMap (List Game)))
    (hnd : (teams.map (·.id)).Nodup) :
    (sortTeams pick teams sm allGames gr ty om tgm).Perm teams := by
  unfold sortTeams
  have hsortperm : (jsSortBy
      (fun a b => decide (getWinPct (jget sm b.id) ≤ getWinPct (jget sm a.id)))
      teams).Perm teams := jsSortBy_perm _ teams
  have hndsort : ((jsSortBy
      (fun a b => decide (getWinPct (jget sm b.id) ≤ getWinPct (jget sm a.id)))
      teams).map (·.id)).Nodup :=
    (List.Perm.nodup_iff (List.Perm.map (·.id) hsortperm)).mpr hnd
  exact List.Perm.trans
    (groupLoop_perm pick sm gr ty om (tgm.getD []) _ _ (Nat.le_refl _) hndsort)
    hsortperm


/-- C9: for every input list of teams with pairwise-distinct ids, `sortTeams`
returns a permutation of its input — every input team appears exactly once in
the output ordering and no team outside the input appears — and in particular
an empty input yields an empty result. -/
theorem sortTeams_permutation (pick : List Team → ℕ) (teams : List Team)
    (statsMap : TeamStatsMap) (allGames : List Game) (gameResults : JMap String)
    (type : TiebreakType) (opponentsMap : JMap (List String))
    (teamGamesMap : Option (JMap (List Game)))
    (hnd : (teams.map (·.id)).Nodup) :
    (sortTeams pick teams statsMap allGames gameResults type opponentsMap
      teamGamesMap).Perm teams
    ∧ (∀ t : Team, (sortTeams pick teams statsMap allGames gameResults type
        opponentsMap teamGamesMap).count t = teams.count t)
    ∧ (teams = [] → sortTeams pick teams statsMap allGames gameResults type
        opponentsMap teamGamesMap = []) := by
  have hperm := sortTeams_perm_core pick teams statsMap allGames gameResults
    type opponentsMap teamGamesMap hnd
  refine ⟨hperm, fun t => List.Perm.count_eq hperm t, ?_⟩
  intro hnil
  subst hnil
  exact List.Perm.eq_nil hperm

/-- Witness for C9: the three-team fixture has distinct ids, and `sortTeams`
on it (with the C1 stats, division procedure) is a permutation of the input
list. -/
theorem sortTeams_permutation_witness :
    ((([tA, tB, tC] : List Team).map (·.id)).Nodup)
    ∧ (sortTeams (fun _ => 0) [tA, tB, tC] c1Stats [] [] TiebreakType.division
        [] none).Perm [tA, tB, tC]
    ∧ (sortTeams (fun _ => 0) [tA, tB, tC] c1Stats [] [] TiebreakType.division
        [] none).count tA = ([tA, tB, tC] : List Team).count tA :=
  ⟨by decide,
   (sortTeams_permutation (fun _ => 0) [tA, tB, tC] c1Stats [] []
     TiebreakType.division [] none (by decide)).1,
   (sortTeams_permutation (fun _ => 0) [tA, tB, tC] c1Stats [] []
     TiebreakType.division [] none (by decide)).2.1 tA⟩


/-- Trivial oracle bundle for concrete runs: zero randomness, first pick,
`pow10` constantly `1`. -/
def o0 : SimOracles := { urand := fun _ => 0, pick := fun _ => 0, pow10 := fun _ => 1 }

/-- C5 (amended): `runSimulation` fails fast — before any trial work — when
the Elo map is empty or some team lacks an Elo rating, but it performs no
zero-trials validation: once the Elo checks pass it returns `.ok` for every
trial count, including zero, in which case every returned row reports zero
simulations and zero playoff counters instead of an error. (The row's
probability fields are then the ill-defined quotient 0/0, so nothing is
asserted about them here.) -/
theorem runSimulation_validation_only (o : SimOracles) (initialTeams : List Team)
    (allGames : List Game) (numSimulations : ℕ) (oddsMap kalshiEloMap : JMap ℚ)
    (userPicks : JMap String) :
    (kalshiEloMap.isEmpty = true →
      runSimulation o initialTeams allGames numSimulations oddsMap kalshiEloMap
        userPicks
        = .error "Kalshi Elo map is required. Cannot run simulation without market data.")
    ∧ (∀ t : Team, kalshiEloMap.isEmpty = false →
        initialTeams.find? (fun u => (jget kalshiEloMap u.id).isNone) = some t →
        runSimulation o initialTeams allGames numSimulations oddsMap kalshiEloMap
          userPicks
          = .error ("Missing Kalshi Elo for team: " ++ t.name ++ " (" ++ t.id ++ ")"))
    ∧ (kalshiEloMap.isEmpty = false →
        initialTeams.find? (fun u => (jget kalshiEloMap u.id).isNone) = none →
        runSimulation o initialTeams allGames numSimulations oddsMap kalshiEloMap
          userPicks
          = .ok (runSimulationBody o initialTeams allGames numSimulations oddsMap
              kalshiEloMap userPicks))
    ∧ (∀ res ∈ (runSimulationBody o initialTeams allGames 0 oddsMap kalshiEloMap
          userPicks).1,
        res.totalSimulations = 0 ∧ res.madePlayoffs = 0) := by
  refine ⟨?_, ?_, ?_, ?_⟩
  · intro h
    simp [runSimulation, h]
  · intro t hne hfind
    simp [runSimulation, hne, hfind]
  · intro hne hfind
    simp [runSimulation, hne, hfind]
  · intro res hres
    simp only [runSimulationBody, List.range_zero, List.foldl_nil] at hres
    have hmem := (List.Perm.mem_iff (jsSortBy_perm _ _)).mp hres
    obtain ⟨p, hp, hpe⟩ := List.mem_map.mp hmem
    rw [← hpe]
    exact ⟨rfl, rfl⟩

/-- Counterexample to C5 as stated: with a valid Elo map and a zero trial
count, `runSimulation` does not throw — it returns `.ok`. -/
theorem zero_trials_accepted :
    runSimulation o0 [tA] [] 0 [] [("A", 1500)] []
      = .ok (runSimulationBody o0 [tA] [] 0 [] [("A", 1500)] []) := rfl

/-- Witness for C5: an empty Elo map errors; a zero trial count with a valid
Elo map succeeds. -/
theorem runSimulation_validation_only_witness :
    runSimulation o0 [tA] [] 5 [] [] []
      = .error "Kalshi Elo map is required. Cannot run simulation without market data."
    ∧ runSimulation o0 [tA] [] 0 [] [("A", 1500)] []
      = .ok (runSimulationBody o0 [tA] [] 0 [] [("A", 1500)] []) :=
  ⟨(runSimulation_validation_only o0 [tA] [] 5 [] [] []).1 rfl,
   (runSimulation_validation_only o0 [tA] [] 0 [] [("A", 1500)] []).2.2.1 rfl rfl⟩


theorem groupLoop_nil (pick : List Team → ℕ) (sm : TeamStatsMap)
    (gr : JMap String) (ty : TiebreakType) (om : JMap (List String))
    (tgm : JMap (List Game)) :
    groupLoop pick sm gr ty om tgm [] = [] := by
  simp [groupLoop]

theorem sortTeams_nil (pick : List Team → ℕ) (sm : TeamStatsMap)
    (allGames : List Game) (gr : JMap String) (ty : TiebreakType)
    (om : JMap (List String)) (tgm : Option (JMap (List Game))) :
    sortTeams pick [] sm allGames gr ty om tgm = [] := by
  unfold sortTeams
  exact groupLoop_nil pick sm gr ty om (tgm.getD [])

/-- C6 (amended): an empty conference partition is not an error. When every
division list of a conference's division map is empty, `processConference`
silently returns the empty outcome (no winners, no wildcards, no first
seed); and `runSimulation` performs no conference-partition validation at
all — once the Elo checks pass it returns `.ok` whatever the conference
split of the team list. -/
theorem empty_partition_silent (pick : List Team → ℕ)
    (divisionMap : JMap (List Team)) (statsMap : TeamStatsMap)
    (allGames : List Game) (gameResults : JMap String)
    (scheduleMap : JMap (List String)) (teamGamesMap : JMap (List Game))
    (o : SimOracles) (initialTeams : List Team) (numSimulations : ℕ)
    (oddsMap kalshiEloMap : JMap ℚ) (userPicks : JMap String)
    (hdiv : ∀ d ∈ divisionNames, jgetD divisionMap d [] = [])
    (hne : kalshiEloMap.isEmpty = false)
    (hfind : initialTeams.find? (fun u => (jget kalshiEloMap u.id).isNone) = none) :
    processConference pick divisionMap statsMap allGames gameResults scheduleMap
      teamGamesMap
      = { winners := [], wildcards := [], firstSeed := none }
    ∧ runSimulation o initialTeams allGames numSimulations oddsMap kalshiEloMap
        userPicks
        = .ok (runSimulationBody o initialTeams allGames numSimulations oddsMap
            kalshiEloMap userPicks) := by
  constructor
  · have hN := hdiv "North" (by simp [divisionNames])
    have hS := hdiv "South" (by simp [divisionNames])
    have hE := hdiv "East" (by simp [divisionNames])
    have hW := hdiv "West" (by simp [divisionNames])
    simp only [processConference, divisionNames, List.foldl, hN, hS, hE, hW,
      sortTeams_nil]
    rfl
  · simp [runSimulation, hne, hfind]

/-- Counterexample to C6 as stated: a one-team input whose NFC partition is
empty still succeeds — `runSimulation` returns `.ok`, skipping the empty
conference instead of raising a hard error. -/
theorem empty_conference_ok :
    ([tA].filter (fun t => decide (t.conference = "NFC"))) = []
    ∧ runSimulation o0 [tA] [] 1 [] [("A", 1500)] []
        = .ok (runSimulationBody o0 [tA] [] 1 [] [("A", 1500)] []) := ⟨rfl, rfl⟩

/-- Witness for C6: on the all-empty division map and a one-team input, the
conference outcome is empty and the simulation call succeeds. -/
theorem empty_partition_silent_witness :
    processConference (fun _ => 0) [] [] [] [] [] []
      = { winners := [], wildcards := [], firstSeed := none }
    ∧ runSimulation o0 [tA] [] 2 [] [("A", 1500)] []
        = .ok (runSimulationBody o0 [tA] [] 2 [] [("A", 1500)] []) :=
  ⟨(empty_partition_silent (fun _ => 0) [] [] [] [] [] [] o0 [tA] 2 []
      [("A", 1500)] [] (by decide) rfl rfl).1,
   (empty_partition_silent (fun _ => 0) [] [] [] [] [] [] o0 [tA] 2 []
      [("A", 1500)] [] (by decide) rfl rfl).2⟩


/-- The per-division step of `processConference`'s pools fold, named for the
fold lemmas: rank the division, send the top team to the winners pool and the
rest to the wildcard pool. -/
def poolsStep (pick : List Team → ℕ) (divisionMap : JMap (List Team))
    (statsMap : TeamStatsMap) (allGames : List Game) (gameResults : JMap String)
    (scheduleMap : JMap (List String)) (teamGamesMap : JMap (List Game))
    (acc : List Team × List Team) (d : String) : List Team × List Team :=
  match sortTeams pick (jgetD divisionMap d []) statsMap allGames gameResults
      TiebreakType.division scheduleMap (some teamGamesMap) with
  | [] => acc
  | w :: rest => (acc.1 ++ [w], acc.2 ++ rest)

theorem processConference_eq (pick : List Team → ℕ)
    (divisionMap : JMap (List Team)) (statsMap : TeamStatsMap)
    (allGames : List Game) (gameResults : JMap String)
    (scheduleMap : JMap (List String)) (teamGamesMap : JMap (List Game)) :
    processConference pick divisionMap statsMap allGames gameResults scheduleMap
      teamGamesMap
    = { winners := sortTeams pick
          (divisionNames.foldl (poolsStep pick divisionMap statsMap allGames
            gameResults scheduleMap teamGamesMap) ([], [])).1
          statsMap allGames gameResults TiebreakType.wildcard scheduleMap
          (some teamGamesMap),
        wildcards := (sortTeams pick
          (divisionNames.foldl (poolsStep pick divisionMap statsMap allGames
            gameResults scheduleMap teamGamesMap) ([], [])).2
          statsMap allGames gameResults TiebreakType.wildcard scheduleMap
          (some teamGamesMap)).take 3,
        firstSeed := (sortTeams pick
          (divisionNames.foldl (poolsStep pick divisionMap statsMap allGames
            gameResults scheduleMap teamGamesMap) ([], [])).1
          statsMap allGames gameResults TiebreakType.wildcard scheduleMap
          (some teamGamesMap)).head? } := rfl

theorem pools_fold_perm (pick : List Team → ℕ) (divisionMap : JMap (List Team))
    (statsMap : TeamStatsMap) (allGames : List Game) (gameResults : JMap String)
    (scheduleMap : JMap (List String)) (teamGamesMap : JMap (List Game)) :
    ∀ (ds : List String) (acc : List Team × List Team),
    ((acc.1 ++ (acc.2 ++ ds.flatMap (fun d => jgetD divisionMap d []))).map
      (·.id)).Nodup →
    ((ds.foldl (poolsStep pick divisionMap statsMap allGames gameResults
        scheduleMap teamGamesMap) acc).1
      ++ (ds.foldl (poolsStep pick divisionMap statsMap allGames gameResults
        scheduleMap teamGamesMap) acc).2).Perm
      (acc.1 ++ (acc.2 ++ ds.flatMap (fun d => jgetD divisionMap d []))) := by
  intro ds
  induction ds with
  | nil =>
      intro acc _
      simp only [List.foldl_nil, List.flatMap_nil, List.append_nil]
      exact List.Perm.refl _
  | cons d ds ih =>
      intro acc hnd
      have hsubD : ((jgetD divisionMap d []).map (·.id)).Nodup := by
        have hsub : (jgetD divisionMap d []).Sublist
            (acc.1 ++ (acc.2 ++ (d :: ds).flatMap
              (fun d => jgetD divisionMap d []))) := by
          refine List.Sublist.trans ?_ (List.sublist_append_right acc.1 _)
          refine List.Sublist.trans ?_ (List.sublist_append_right acc.2 _)
          rw [List.flatMap_cons]
          exact List.sublist_append_left _ _
        exact List.Nodup.sublist (hsub.map (fun t : Team => t.id)) hnd
      have hsp : (sortTeams pick (jgetD divisionMap d []) statsMap allGames
          gameResults TiebreakType.division scheduleMap
          (some teamGamesMap)).Perm (jgetD divisionMap d []) :=
        sortTeams_perm_core pick (jgetD divisionMap d []) statsMap allGames
          gameResults TiebreakType.division scheduleMap (some teamGamesMap) hsubD
      rw [List.foldl_cons]
      cases hs : sortTeams pick (jgetD divisionMap d []) statsMap allGames
          gameResults TiebreakType.division scheduleMap (some teamGamesMap) with
      | nil =>
          have hDnil : jgetD divisionMap d [] = [] := by
            rw [hs] at hsp
            exact (List.nil_perm.mp hsp)
          have hstep : poolsStep pick divisionMap statsMap allGames gameResults
              scheduleMap teamGamesMap acc d = acc := by
            simp [poolsStep, hs]
          rw [hstep]
          have hnd2 : ((acc.1 ++ (acc.2 ++ ds.flatMap
              (fun d => jgetD divisionMap d []))).map (·.id)).Nodup := by
            rw [List.flatMap_cons, hDnil, List.nil_append] at hnd
            exact hnd
          have := ih acc hnd2
          rw [List.flatMap_cons, hDnil, List.nil_append]
          exact this
      | cons w rest =>
          have h1 : (w :: rest).Perm (jgetD divisionMap d []) := by
            rw [hs] at hsp
            exact hsp
          have hstep : poolsStep pick divisionMap statsMap allGames gameResults
              scheduleMap teamGamesMap acc d = (acc.1 ++ [w], acc.2 ++ rest) := by
            simp [poolsStep, hs]
          rw [hstep]
          have hloc : (((acc.1 ++ [w], acc.2 ++ rest).1
              ++ ((acc.1 ++ [w], acc.2 ++ rest).2 ++ ds.flatMap
                (fun d => jgetD divisionMap d [])))).Perm
              (acc.1 ++ (acc.2 ++ (d :: ds).flatMap
                (fun d => jgetD divisionMap d []))) := by
            rw [List.flatMap_cons]
            simp only [List.append_assoc, List.cons_append, List.nil_append]
            refine List.Perm.append_left acc.1 ?_
            refine List.Perm.trans
              (List.perm_append_comm_assoc [w] acc.2 (rest ++ ds.flatMap
                (fun d => jgetD divisionMap d []))) ?_
            refine List.Perm.append_left acc.2 ?_
            exact List.Perm.append_right _ h1
          have hnd2 : (((acc.1 ++ [w], acc.2 ++ rest).1
              ++ ((acc.1 ++ [w], acc.2 ++ rest).2 ++ ds.flatMap
                (fun d => jgetD divisionMap d []))).map (·.id)).Nodup :=
            ((hloc.map (·.id)).nodup_iff).mpr hnd
          exact List.Perm.trans (ih (acc.1 ++ [w], acc.2 ++ rest) hnd2) hloc


theorem processConference_split (pick : List Team → ℕ)
    (divisionMap : JMap (List Team)) (statsMap : TeamStatsMap)
    (allGames : List Game) (gameResults : JMap String)
    (scheduleMap : JMap (List String)) (teamGamesMap : JMap (List Game))
    (hconf : ((divisionNames.flatMap (fun d => jgetD divisionMap d [])).map
      (·.id)).Nodup) :
    (∀ x ∈ (processConference pick divisionMap statsMap allGames gameResults
        scheduleMap teamGamesMap).winners,
     ∀ y ∈ (processConference pick divisionMap statsMap allGames gameResults
        scheduleMap teamGamesMap).wildcards, x.id ≠ y.id)
    ∧ (processConference pick divisionMap statsMap allGames gameResults
        scheduleMap teamGamesMap).wildcards.length ≤ 3 := by
  have hP : (((divisionNames.foldl (poolsStep pick divisionMap statsMap allGames
      gameResults scheduleMap teamGamesMap) ([], [])).1
      ++ (divisionNames.foldl (poolsStep pick divisionMap statsMap allGames
      gameResults scheduleMap teamGamesMap) ([], [])).2)).Perm
      (divisionNames.flatMap (fun d => jgetD divisionMap d [])) := by
    have h := pools_fold_perm pick divisionMap statsMap allGames gameResults
      scheduleMap teamGamesMap divisionNames ([], []) (by simpa using hconf)
    simpa using h
  have hPnodup : (((divisionNames.foldl (poolsStep pick divisionMap statsMap
      allGames gameResults scheduleMap teamGamesMap) ([], [])).1
      ++ (divisionNames.foldl (poolsStep pick divisionMap statsMap allGames
      gameResults scheduleMap teamGamesMap) ([], [])).2).map (·.id)).Nodup :=
    ((hP.map (·.id)).nodup_iff).mpr hconf
  rw [List.map_append, List.nodup_append] at hPnodup
  obtain ⟨h1, h2, hdisj⟩ := hPnodup
  have hw : (sortTeams pick (divisionNames.foldl (poolsStep pick divisionMap
      statsMap allGames gameResults scheduleMap teamGamesMap) ([], [])).1
      statsMap allGames gameResults TiebreakType.wildcard scheduleMap
      (some teamGamesMap)).Perm
      (divisionNames.foldl (poolsStep pick divisionMap statsMap allGames
        gameResults scheduleMap teamGamesMap) ([], [])).1 :=
    sortTeams_perm_core pick _ statsMap allGames gameResults
      TiebreakType.wildcard scheduleMap (some teamGamesMap) h1
  have hw2 : (sortTeams pick (divisionNames.foldl (poolsStep pick divisionMap
      statsMap allGames gameResults scheduleMap teamGamesMap) ([], [])).2
      statsMap allGames gameResults TiebreakType.wildcard scheduleMap
      (some teamGamesMap)).Perm
      (divisionNames.foldl (poolsStep pick divisionMap statsMap allGames
        gameResults scheduleMap teamGamesMap) ([], [])).2 :=
    sortTeams_perm_core pick _ statsMap allGames gameResults
      TiebreakType.wildcard scheduleMap (some teamGamesMap) h2
  rw [processConference_eq]
  dsimp only
  constructor
  · intro x hx y hy hxy
    have hxP := (List.Perm.mem_iff hw).mp hx
    have hyP := (List.Perm.mem_iff hw2).mp ((List.take_sublist 3 _).subset hy)
    exact hdisj (List.mem_map_of_mem (·.id) hxP)
      (hxy ▸ List.mem_map_of_mem (·.id) hyP)
  · rw [List.length_take]
    exact inf_le_left

theorem byDiv_flat_eq (confTeams : List Team) :
    divisionNames.flatMap (fun d => jgetD (buildByDiv confTeams) d [])
    = confTeams.filter (fun t => decide (t.division = "North"))
      ++ (confTeams.filter (fun t => decide (t.division = "South"))
      ++ (confTeams.filter (fun t => decide (t.division = "East"))
      ++ (confTeams.filter (fun t => decide (t.division = "West")) ++ []))) := rfl

theorem filter_div_nodup (l : List Team) (h : (l.map (·.id)).Nodup)
    (d : String) :
    ((l.filter (fun t => decide (t.division = d))).map (·.id)).Nodup :=
  List.Nodup.sublist ((List.filter_sublist l).map (fun t : Team => t.id)) h

theorem filter_div_disjoint (l : List Team) (h : (l.map (·.id)).Nodup)
    (d1 d2 : String) (hne : d1 ≠ d2) :
    List.Disjoint ((l.filter (fun t => decide (t.division = d1))).map (·.id))
      ((l.filter (fun t => decide (t.division = d2))).map (·.id)) := by
  intro x hx1 hx2
  obtain ⟨a, ha, haid⟩ := List.mem_map.mp hx1
  obtain ⟨b, hb, hbid⟩ := List.mem_map.mp hx2
  obtain ⟨haL, had⟩ := List.mem_filter.mp ha
  obtain ⟨hbL, hbd⟩ := List.mem_filter.mp hb
  simp only [decide_eq_true_eq] at had hbd
  have hab : a = b := id_inj l h a b haL hbL (by rw [haid, hbid])
  exact hne (by rw [← had, hab, hbd])

theorem byDiv_flat_nodup (confTeams : List Team)
    (h : (confTeams.map (·.id)).Nodup) :
    ((divisionNames.flatMap (fun d => jgetD (buildByDiv confTeams) d [])).map
      (·.id)).Nodup := by
  rw [byDiv_flat_eq]
  simp only [List.append_nil, List.map_append]
  refine List.nodup_append.mpr ⟨filter_div_nodup confTeams h "North", ?_, ?_⟩
  · refine List.nodup_append.mpr ⟨filter_div_nodup confTeams h "South", ?_, ?_⟩
    · exact List.nodup_append.mpr ⟨filter_div_nodup confTeams h "East",
        filter_div_nodup confTeams h "West",
        filter_div_disjoint confTeams h "East" "West" (by decide)⟩
    · intro x hx hmem
      rcases List.mem_append.mp hmem with hE | hW
      · exact filter_div_disjoint confTeams h "South" "East" (by decide) hx hE
      · exact filter_div_disjoint confTeams h "South" "West" (by decide) hx hW
  · intro x hx hmem
    rcases List.mem_append.mp hmem with hS | hEW
    · exact filter_div_disjoint confTeams h "North" "South" (by decide) hx hS
    · rcases List.mem_append.mp hEW with hE | hW
      · exact filter_div_disjoint confTeams h "North" "East" (by decide) hx hE
      · exact filter_div_disjoint confTeams h "North" "West" (by decide) hx hW


/-- The per-index split invariant of the aggregate counters. -/
def acrossInv (a : AcrossState) : Prop :=
  ∀ idx, a.madePlayoffs idx = a.wonDivision idx + a.madeWildcard idx

theorem creditWinners_inv (m : JMap ℕ) (ts : List Team) :
    ∀ a : AcrossState, acrossInv a → acrossInv (creditWinners m a ts) := by
  induction ts with
  | nil => intro a h; exact h
  | cons t ts ih =>
      intro a h
      refine ih _ ?_
      intro idx
      show bumpFn a.madePlayoffs (jgetD m t.id 0) idx
        = bumpFn a.wonDivision (jgetD m t.id 0) idx + a.madeWildcard idx
      unfold bumpFn updateFn
      by_cases hidx : idx = jgetD m t.id 0
      · subst hidx
        rw [if_pos rfl, if_pos rfl]
        have := h (jgetD m t.id 0)
        omega
      · rw [if_neg hidx, if_neg hidx]
        exact h idx

theorem creditWildcards_inv (m : JMap ℕ) (ts : List Team) :
    ∀ a : AcrossState, acrossInv a → acrossInv (creditWildcards m a ts) := by
  induction ts with
  | nil => intro a h; exact h
  | cons t ts ih =>
      intro a h
      refine ih _ ?_
      intro idx
      show bumpFn a.madePlayoffs (jgetD m t.id 0) idx
        = a.wonDivision idx + bumpFn a.madeWildcard (jgetD m t.id 0) idx
      unfold bumpFn updateFn
      by_cases hidx : idx = jgetD m t.id 0
      · subst hidx
        rw [if_pos rfl, if_pos rfl]
        have := h (jgetD m t.id 0)
        omega
      · rw [if_neg hidx, if_neg hidx]
        exact h idx

theorem creditFirstSeed_inv (m : JMap ℕ) (seed : Option Team) (a : AcrossState)
    (h : acrossInv a) : acrossInv (creditFirstSeed m a seed) := by
  cases seed with
  | none => exact h
  | some t => exact h

theorem runTrial_inv (cfg : SimConfig) (o : SimOracles) (a : AcrossState)
    (h : acrossInv a) : acrossInv (runTrial cfg o a) := by
  unfold runTrial
  apply creditFirstSeed_inv
  apply creditFirstSeed_inv
  apply creditWildcards_inv
  apply creditWildcards_inv
  apply creditWinners_inv
  apply creditWinners_inv
  intro idx
  exact h idx

theorem simTrials_inv (cfg : SimConfig) (o : SimOracles) :
    ∀ (l : List ℕ) (a : AcrossState), acrossInv a →
    acrossInv (l.foldl (fun a _ => runTrial cfg o a) a) := by
  intro l
  induction l with
  | nil => intro a h; exact h
  | cons x xs ih =>
      intro a h
      exact ih _ (runTrial_inv cfg o a h)


theorem mkSimResult_prob_split (nS : ℕ) (final : AcrossState) (idx : ℕ)
    (t : Team)
    (h : final.madePlayoffs idx = final.wonDivision idx + final.madeWildcard idx) :
    (mkSimResult nS final idx t).madePlayoffs
      = (mkSimResult nS final idx t).wonDivision
        + (mkSimResult nS final idx t).madeWildcard
    ∧ (mkSimResult nS final idx t).playoffProb
      = (mkSimResult nS final idx t).divisionProb
        + (mkSimResult nS final idx t).wildcardProb := by
  constructor
  · exact h
  · show ((final.madePlayoffs idx : ℚ)) / (nS : ℚ)
      = (final.wonDivision idx : ℚ) / (nS : ℚ)
        + (final.madeWildcard idx : ℚ) / (nS : ℚ)
    rw [h, Nat.cast_add, add_div]

/-- C10: in every conference ranking the division winners and the wildcard
qualifiers are id-disjoint and at most 3 wildcards are taken per conference
(given the conference partition has pairwise-distinct team ids, which holds
for every `buildByDiv` partition of a duplicate-free team list); the
aggregate counters of the trial loop always satisfy
`madePlayoffs = wonDivision + madeWildcard` at every index, and every
returned result row satisfies both the counter identity and
`playoffProb = divisionProb + wildcardProb` exactly. -/
theorem playoff_split_counters (pick : List Team → ℕ)
    (divisionMap : JMap (List Team)) (statsMap : TeamStatsMap)
    (allGames2 : List Game) (gameResults : JMap String)
    (scheduleMap : JMap (List String)) (teamGamesMap : JMap (List Game))
    (o : SimOracles) (initialTeams : List Team) (allGames : List Game)
    (n : ℕ) (oddsMap kalshiEloMap : JMap ℚ) (userPicks : JMap String)
    (hconf : ((divisionNames.flatMap (fun d => jgetD divisionMap d [])).map
      (·.id)).Nodup) :
    (∀ x ∈ (processConference pick divisionMap statsMap allGames2 gameResults
        scheduleMap teamGamesMap).winners,
     ∀ y ∈ (processConference pick divisionMap statsMap allGames2 gameResults
        scheduleMap teamGamesMap).wildcards, x.id ≠ y.id)
    ∧ (processConference pick divisionMap statsMap allGames2 gameResults
        scheduleMap teamGamesMap).wildcards.length ≤ 3
    ∧ (∀ confTeams : List Team, (confTeams.map (·.id)).Nodup →
        ((divisionNames.flatMap (fun d => jgetD (buildByDiv confTeams) d [])).map
          (·.id)).Nodup)
    ∧ (∀ idx, ((List.range n).foldl
        (fun a _ => runTrial (buildSimConfig initialTeams allGames oddsMap
          kalshiEloMap userPicks) o a) initAcrossState).madePlayoffs idx
        = ((List.range n).foldl
            (fun a _ => runTrial (buildSimConfig initialTeams allGames oddsMap
              kalshiEloMap userPicks) o a) initAcrossState).wonDivision idx
          + ((List.range n).foldl
            (fun a _ => runTrial (buildSimConfig initialTeams allGames oddsMap
              kalshiEloMap userPicks) o a) initAcrossState).madeWildcard idx)
    ∧ (∀ res ∈ (runSimulationBody o initialTeams allGames n oddsMap
          kalshiEloMap userPicks).1,
        res.madePlayoffs = res.wonDivision + res.madeWildcard
        ∧ res.playoffProb = res.divisionProb + res.wildcardProb) := by
  have hsplit := processConference_split pick divisionMap statsMap allGames2
    gameResults scheduleMap teamGamesMap hconf
  refine ⟨hsplit.1, hsplit.2, byDiv_flat_nodup, ?_, ?_⟩
  · exact fun idx => simTrials_inv
      (buildSimConfig initialTeams allGames oddsMap kalshiEloMap userPicks) o
      (List.range n) initAcrossState (fun _ => rfl) idx
  · intro res hres
    simp only [runSimulationBody] at hres
    have hmem := (List.Perm.mem_iff (jsSortBy_perm _ _)).mp hres
    obtain ⟨p, hp, hpe⟩ := List.mem_map.mp hmem
    have hinv := simTrials_inv
      (buildSimConfig initialTeams allGames oddsMap kalshiEloMap userPicks) o
      (List.range n) initAcrossState (fun _ => rfl)
    rw [← hpe]
    exact mkSimResult_prob_split n _ p.1 p.2 (hinv p.1)

/-- Witness for C10: on the empty division map the wildcard cap holds, and
after two trials on a one-team input the counters at index 0 split as
`madePlayoffs = wonDivision + madeWildcard`. -/
theorem playoff_split_counters_witness :
    (processConference (fun _ => 0) [] [] [] [] [] []).wildcards.length ≤ 3
    ∧ ((List.range 2).foldl
        (fun a _ => runTrial (buildSimConfig [tA] [] [] [("A", 1500)] []) o0 a)
        initAcrossState).madePlayoffs 0
      = ((List.range 2).foldl
          (fun a _ => runTrial (buildSimConfig [tA] [] [] [("A", 1500)] []) o0 a)
          initAcrossState).wonDivision 0
        + ((List.range 2).foldl
          (fun a _ => runTrial (buildSimConfig [tA] [] [] [("A", 1500)] []) o0 a)
          initAcrossState).madeWildcard 0 :=
  ⟨(playoff_split_counters (fun _ => 0) [] [] [] [] [] [] o0 [tA] [] 2 []
      [("A", 1500)] [] (by decide)).2.1,
   (playoff_split_counters (fun _ => 0) [] [] [] [] [] [] o0 [tA] [] 2 []
      [("A", 1500)] [] (by decide)).2.2.2.1 0⟩

end NFLSim
